import Mathlib

/-!
# Verification of the gendal schema-resolution engine

This development is a shallow embedding, in Lean 4, of the schema
resolution engine of `github.com/turnkey-commerce/gendal`:

* the `snaker` identifier normalizer (`src/unnamed/part_001`, `part_002`),
* the postgres type-mapping resolver
  (`src/loaders/postgrestypes/postgrestypes.go`, `src/loaders/postgres.go`),
* the schema graph builder, foreign-key resolver and index resolver
  (`src/internal/loader.go`).

Modelling conventions:

* Go `error` returns and runtime panics are both made explicit in the
  `GoErr` type; fallible functions return `Except GoErr α`.
* Go maps are modelled as association lists (`MapL`) with
  overwrite-on-insert semantics; iteration order of a Go map is
  unspecified, the list order stands in for one arbitrary such order.
* Database queries, the template renderer, `rand.Int`, and the external
  `dburl` library are modelled as explicit oracle functions supplied as
  arguments: the embedded code is a pure function of the code under
  `src/` and of those oracles.
* Character classification (`unicode.IsUpper` etc.) and case mapping are
  modelled on the ASCII range, which is the range the Go code's own
  comments document it for ("Only works on basic latin letters" holds of
  the identifiers in scope); byte indexing of Go strings coincides with
  character indexing on that range.
-/

set_option autoImplicit false

namespace Gendal

/-- Outcome of a fallible Go computation: a returned `error` value, or a
runtime panic such as a nil-pointer dereference.  A Go function that
"returns an error rather than crashing" produces `goError`, never
`nilDeref`. -/
inductive GoErr where
  | goError (msg : String)
  | nilDeref (site : String)
  deriving Repr, DecidableEq

/-- A Go `map[string]V`, modelled as an association list. -/
abbrev MapL (α : Type) := List (String × α)

/-- Go map assignment `m[k] = v`: overwrite the existing entry if the key
is present, append otherwise. -/
def mapInsert {α : Type} (m : MapL α) (k : String) (v : α) : MapL α :=
  if m.any (fun kv => kv.1 == k) then
    m.map (fun kv => if kv.1 == k then (k, v) else kv)
  else m ++ [(k, v)]

/-- Go map lookup `m[k]`. -/
def mapLookup {α : Type} (m : MapL α) (k : String) : Option α :=
  (m.find? (fun kv => kv.1 == k)).map (fun kv => kv.2)

/-- The keys of a modelled Go map. -/
def mapKeys {α : Type} (m : MapL α) : List String := m.map (fun kv => kv.1)

/-- Go `strings.Contains(s, sub)` on the underlying character lists. -/
def strContainsAux (sub : List Char) : List Char → Bool
  | [] => sub.isEmpty
  | c :: t => sub.isPrefixOf (c :: t) || strContainsAux sub t

/-- Go `strings.Contains(s, sub)`. -/
def goContains (s sub : String) : Bool :=
  strContainsAux sub.toList s.toList

/-- Go `strings.ToLower` on a character list (ASCII model). -/
def goToLower (l : List Char) : List Char := l.map Char.toLower

/-- Go `strings.ToLower` (ASCII model). -/
def goToLowerStr (s : String) : String := String.mk (goToLower s.toList)

/-- Go `strings.ToUpper` (ASCII model). -/
def goToUpperStr (s : String) : String := String.mk (s.toList.map Char.toUpper)

/-- Go `strings.TrimSpace` (ASCII whitespace model). -/
def goTrimSpace (s : List Char) : List Char :=
  ((s.dropWhile Char.isWhitespace).reverse.dropWhile Char.isWhitespace).reverse

/-! ## The snaker identifier normalizer (`src/unnamed/part_001`, `part_002`) -/

/-- `snaker.Initialisms`: a set of registered initialisms (Go
`map[string]bool` plus the length of the longest member). -/
structure Initialisms where
  m : List String
  max : Nat

/-- `snaker.Initialisms.Add`: registering an initialism shorter than two
characters is an error; otherwise the set and the maximum length are
updated. -/
def Initialisms.Add (ini : Initialisms) (initialisms : List String) :
    Except GoErr Initialisms :=
  initialisms.foldl
    (fun acc s =>
      match acc with
      | .error e => .error e
      | .ok i =>
        if s.length < 2 then .error (.goError ("invalid initialism " ++ s))
        else .ok { m := i.m ++ [s], max := Nat.max i.max s.length })
    (.ok ini)

/-- `snaker.New`. -/
def NewInitialisms (initialisms : List String) : Except GoErr Initialisms :=
  Initialisms.Add { m := [], max := 0 } initialisms

/-- The inner countdown loop of `snaker.Initialisms.Peek`: try the
prefixes of `z` of length `i`, `i-1`, …, `2` against the registered set
and return the first (longest) match. -/
def peekFind (ini : Initialisms) (z : List Char) : Nat → List Char
  | 0 => []
  | 1 => []
  | n + 2 =>
    if ini.m.contains (String.mk (z.take (n + 2))) then z.take (n + 2)
    else peekFind ini z (n + 1)

/-- `snaker.Initialisms.Peek`: the longest registered initialism that is
an uppercase prefix of `r` (empty if none). -/
def peek (ini : Initialisms) (r : List Char) : List Char :=
  if r.length < 2 then []
  else
    let l := Nat.min r.length ini.max
    let z := (r.take l).takeWhile (fun c => c.isUpper)
    if z.length < 2 then [] else peekFind ini z (Nat.min ini.max z.length)

/-- The `next` chunk appended per iteration of
`snaker.Initialisms.CamelToSnake`: the peeked initialism when one is
present and usable, the single current character otherwise. -/
def nextChunk (ini : Initialisms) (c : Char) (rest : List Char)
    (lastWasUpper lastWasIsm : Bool) : List Char :=
  if !(peek ini (c :: rest)).isEmpty && (!lastWasUpper || lastWasIsm) then
    peek ini (c :: rest)
  else [c]

theorem nextChunk_length_pos (ini : Initialisms) (c : Char) (rest : List Char)
    (lastWasUpper lastWasIsm : Bool) :
    0 < (nextChunk ini c rest lastWasUpper lastWasIsm).length := by
  unfold nextChunk
  split
  · rename_i h
    rw [Bool.and_eq_true, Bool.not_eq_true'] at h
    cases hi : (peek ini (c :: rest)) with
    | nil => rw [hi] at h; simp at h
    | cons a t => simp [hi]
  · simp

theorem drop_nextChunk_length_lt (ini : Initialisms) (c : Char)
    (rest : List Char) (lu li : Bool) :
    ((c :: rest).drop (nextChunk ini c rest lu li).length).length <
      (c :: rest).length := by
  simp only [List.length_drop, List.length_cons]
  have := nextChunk_length_pos ini c rest lu li
  omega

/-- The scanning loop of `snaker.Initialisms.CamelToSnake`: the state
triple is Go's `(lastWasUpper, lastWasLetter, lastWasIsm)`; a separator
is inserted before the current chunk when the previous character was a
letter and the current is uppercase, or the previous chunk was an
initialism and the current character is a letter. -/
def camelToSnakeAux (ini : Initialisms) (r : List Char)
    (lastWasUpper lastWasLetter lastWasIsm : Bool) : List Char :=
  match r with
  | [] => []
  | c :: rest =>
    (if (lastWasLetter && c.isUpper) || (lastWasIsm && c.isAlpha)
     then '_' :: nextChunk ini c rest lastWasUpper lastWasIsm
     else nextChunk ini c rest lastWasUpper lastWasIsm) ++
      camelToSnakeAux ini
        ((c :: rest).drop (nextChunk ini c rest lastWasUpper lastWasIsm).length)
        c.isUpper c.isAlpha
        (decide (1 < (nextChunk ini c rest lastWasUpper lastWasIsm).length))
termination_by r.length
decreasing_by apply drop_nextChunk_length_lt

/-- `snaker.Initialisms.CamelToSnake`. -/
def Initialisms.CamelToSnake (ini : Initialisms) (name : String) : String :=
  if name = "" then ""
  else String.mk (goToLower (camelToSnakeAux ini name.toList false false false))

/-- Go `strings.Split(name, "_")` on the character list: split at each
underscore, keeping empty words. -/
def splitUnderscoreAux (acc : List Char) : List Char → List (List Char)
  | [] => [acc.reverse]
  | c :: rest =>
    if c == '_' then acc.reverse :: splitUnderscoreAux [] rest
    else splitUnderscoreAux (c :: acc) rest

/-- Go `strings.Split(name, "_")`. -/
def splitUnderscore (s : List Char) : List (List Char) :=
  splitUnderscoreAux [] s

/-- Title-casing of one word in `snaker.Initialisms.SnakeToCamel`:
`strings.ToUpper(word[:1]) + strings.ToLower(word[1:])`. -/
def titleCaseWord : List Char → List Char
  | [] => []
  | c :: rest => c.toUpper :: rest.map Char.toLower

/-- The word loop of `snaker.Initialisms.SnakeToCamel`: empty words are
skipped; a word whose uppercase form is a registered initialism is
emitted uppercase, any other word is title-cased. -/
def snakeToCamelWords (ini : Initialisms) :
    List (List Char) → List Char → List Char
  | [], s => s
  | w :: ws, s =>
    if w.isEmpty then snakeToCamelWords ini ws s
    else
      let u := w.map Char.toUpper
      if ini.m.contains (String.mk u) then snakeToCamelWords ini ws (s ++ u)
      else snakeToCamelWords ini ws (s ++ titleCaseWord w)

/-- `snaker.Initialisms.SnakeToCamel`. -/
def Initialisms.SnakeToCamel (ini : Initialisms) (name : String) : String :=
  String.mk (snakeToCamelWords ini (splitUnderscore name.toList) [])

/-- `snaker.IsIdentifierChar` (ASCII model; code points at or above 0x80
are classified by external unicode tables in Go and are modelled as
non-identifier characters here). -/
def IsIdentifierChar (c : Char) : Bool :=
  ('a' ≤ c && c ≤ 'z') || ('A' ≤ c && c ≤ 'Z') || c == '_' ||
    ('0' ≤ c && c ≤ '9')

/-- `snaker.subUnderscores`. -/
def subUnderscores (s : List Char) : List Char :=
  s.map (fun c => if IsIdentifierChar c then c else '_')

/-- The run-collapsing scan behind
`snaker.underscoreRE.ReplaceAllString(s, "_")`: the flag records whether
the previous character was an underscore, so each maximal run of
underscores contributes exactly one. -/
def collapseUnderscoresAux : Bool → List Char → List Char
  | _, [] => []
  | prevU, c :: rest =>
    if c == '_' then
      if prevU then collapseUnderscoresAux true rest
      else '_' :: collapseUnderscoresAux true rest
    else c :: collapseUnderscoresAux false rest

/-- `snaker.underscoreRE.ReplaceAllString(s, "_")`: collapse each run of
underscores to a single underscore. -/
def collapseUnderscores (s : List Char) : List Char :=
  collapseUnderscoresAux false s

/-- `snaker.leadingRE.ReplaceAllString(s, "_")`: replace a leading run of
digits and underscores by a single underscore. -/
def replaceLeadingDigits (s : List Char) : List Char :=
  if (s.takeWhile (fun c => c.isDigit || c == '_')).isEmpty then s
  else '_' :: s.dropWhile (fun c => c.isDigit || c == '_')

/-- `snaker.ToIdentifier`. -/
def ToIdentifier (s : String) : String :=
  let cleaned :=
    replaceLeadingDigits
      (collapseUnderscores (subUnderscores (goTrimSpace s.toList)))
  let trimmedLeft := cleaned.dropWhile (fun c => c == '_')
  String.mk (trimmedLeft.reverse.dropWhile (fun c => c == '_')).reverse

/-- `snaker.Initialisms.SnakeToCamelIdentifier`. -/
def Initialisms.SnakeToCamelIdentifier (ini : Initialisms) (name : String) :
    String :=
  ini.SnakeToCamel (ToIdentifier name)

/-- `snaker.CommonInitialisms`. -/
def CommonInitialisms : List String :=
  ["ACL", "API", "ASCII", "CPU", "CSS", "DNS", "EOF", "GUID", "HTML",
   "HTTPS", "HTTP", "ID", "IP", "JSON", "LHS", "QPS", "RAM", "RHS", "RPC",
   "SLA", "SMTP", "SQL", "SSH", "TCP", "TLS", "TTL", "UDP", "UID", "UI",
   "URI", "URL", "UTC", "UTF8", "UUID", "VM", "XML", "XMPP", "XSRF",
   "XSS", "YAML"]

/-- `snaker.DefaultInitialisms`, built by the package `init` from
`CommonInitialisms` (the error is discarded there; all members have
length at least two, so none occurs). -/
def DefaultInitialisms : Initialisms :=
  match NewInitialisms CommonInitialisms with
  | .ok i => i
  | .error _ => { m := [], max := 0 }

/-- Package-level `snaker.CamelToSnake`. -/
def CamelToSnake (name : String) : String :=
  DefaultInitialisms.CamelToSnake name

/-- Package-level `snaker.SnakeToCamel`. -/
def SnakeToCamel (name : String) : String :=
  DefaultInitialisms.SnakeToCamel name

/-- Package-level `snaker.SnakeToCamelIdentifier`. -/
def SnakeToCamelIdentifier (name : String) : String :=
  DefaultInitialisms.SnakeToCamelIdentifier name

/-! ## Raw catalog rows (the generated `models` package)

The `models` package is generated database-access code whose source is
not under `src/`; each row type below is modelled from the spec's
description of the adapter contract (§6) and carries exactly the fields
the code under `src/` reads.  `Typ` stands for the Go field `Type`,
which is a reserved word in Lean. -/

/-- Modelled from the spec: `models.Table` — a native table row (name,
relation kind string, manual-primary-key flag). -/
structure MTable where
  TableName : String
  Typ : String
  ManualPk : Bool
  deriving Repr, DecidableEq

/-- Modelled from the spec: `models.Column` — a native column row (name,
native type string, nullability, is-primary-key). -/
structure MColumn where
  ColumnName : String
  DataType : String
  NotNull : Bool
  IsPrimaryKey : Bool
  deriving Repr, DecidableEq

/-- Modelled from the spec: `models.ForeignKey` — a raw foreign-key row
(owning column, referenced table, referenced column, constraint name). -/
structure MForeignKey where
  ForeignKeyName : String
  ColumnName : String
  RefTableName : String
  RefColumnName : String
  deriving Repr, DecidableEq

/-- Modelled from the spec: `models.Index` — a raw index row; `Origin`
is the sqlite index origin (`"pk"` for primary-key indexes). -/
structure MIndex where
  IndexName : String
  IsUnique : Bool
  IsPrimary : Bool
  Origin : String
  deriving Repr, DecidableEq

/-- Modelled from the spec: `models.IndexColumn` — a raw index-column
row; `Cid` is the column id matched against the ordinal order string. -/
structure MIndexColumn where
  ColumnName : String
  Cid : Nat
  deriving Repr, DecidableEq

/-- Modelled from the spec: `models.Sequence` — a table with a sequence
defined. -/
structure MSequence where
  TableName : String
  deriving Repr, DecidableEq

/-- Modelled from the spec: `models.CrAutoincrement` — a table with a
CockroachDB autoincrement defined. -/
structure MCrAutoincrement where
  TableName : String
  deriving Repr, DecidableEq

/-- Modelled from the spec: `models.Enum` — a native enum row. -/
structure MEnum where
  EnumName : String
  deriving Repr, DecidableEq

/-- Modelled from the spec: `models.EnumValue` — a native enum value
row. -/
structure MEnumValue where
  EnumValue : String
  deriving Repr, DecidableEq

/-- Modelled from the spec: `models.Proc` — a native stored-procedure
row. -/
structure MProc where
  ProcName : String
  ReturnType : String
  deriving Repr, DecidableEq

/-- Modelled from the spec: `models.ProcParam` — a native procedure
parameter row. -/
structure MProcParam where
  ParamType : String
  deriving Repr, DecidableEq

/-! ## The postgres type mapping
(`src/loaders/postgrestypes/postgrestypes.go`) -/

/-- `postgrestypes.PgtypeMode`: the four presentation modes. -/
inductive PgtypeMode where
  | PgtypeModeStd
  | PgtypeModeFull
  | PgtypeModePointer
  | PgtypeModePgtype
  deriving Repr, DecidableEq

/-- `PgtypeMode.String` (the Go `Stringer`; named `PgtypeModeString` here
because a method named `String` would shadow the string type). -/
def PgtypeModeString : PgtypeMode → String
  | .PgtypeModeStd => "std"
  | .PgtypeModeFull => "pgtype-full"
  | .PgtypeModePointer => "pointer"
  | .PgtypeModePgtype => "pgtype"

/-- Result of one native-name lookup: the Go functions return
`(typ, nilVal, ok)` and may set the `asSlice` flag through a pointer;
the flag's final value is returned here explicitly. -/
structure PgTypeRes where
  typ : String
  nilVal : String
  ok : Bool
  asSlice : Bool
  deriving Repr, DecidableEq

/-- `postgrestypes.postgresNameToInternalPgtypeName`. -/
def postgresNameToInternalPgtypeName (dt : String) (asSlice : Bool)
    (int32Type uint32Type : String) : PgTypeRes :=
  match dt with
  | "boolean" => ⟨"bool", "false", true, asSlice⟩
  | "inet" => ⟨"*net.IPNet", "nil", true, asSlice⟩
  | "character varying" => ⟨"string", "\"\"", true, asSlice⟩
  | "money" | "text" | "character" => ⟨"string", "\"\"", true, asSlice⟩
  | "smallint" | "smallserial" => ⟨"int16", "0", true, asSlice⟩
  | "integer" => ⟨int32Type, "0", true, asSlice⟩
  | "serial" => ⟨uint32Type, "0", true, asSlice⟩
  | "bigint" | "bigserial" => ⟨"int64", "0", true, asSlice⟩
  | "real" => ⟨"float32", "0", true, asSlice⟩
  | "double precision" => ⟨"float64", "0", true, asSlice⟩
  | "numeric" => ⟨"float64", "0.0", true, asSlice⟩
  | "bytea" => ⟨"[]byte", "[]", true, asSlice⟩
  | "date" | "timestamp without time zone" | "timestamp with time zone" =>
    ⟨"time.Time", "time.Time\x7b\x7d", true, asSlice⟩
  | "time with time zone" | "time without time zone" =>
    ⟨"int64", "0", true, asSlice⟩
  | "interval" => ⟨"*time.Duration", "nil", true, asSlice⟩
  | "\"char\"" => ⟨"int8", "0", true, asSlice⟩
  | "bit" => ⟨"uint8", "uint8(0)", true, asSlice⟩
  | "bit varying" | "\"any\"" => ⟨"byte", "nil", true, true⟩
  | "hstore" => ⟨"hstore.Hstore", "nil", true, asSlice⟩
  | "uuid" => ⟨"[16]byte", "uuid.New()", true, asSlice⟩
  | _ => ⟨"", "", false, asSlice⟩

/-- `postgrestypes.postgresNameToPgtypeName` (the `pgtype-full` family);
its zero value is `typ + "{Status: pgtype.Null}"`. -/
def postgresNameToPgtypeName (dt : String) (asSlice : Bool) : PgTypeRes :=
  let wrap : String → PgTypeRes := fun typ =>
    ⟨typ, typ ++ "\x7bStatus: pgtype.Null\x7d", true, asSlice⟩
  match dt with
  | "boolean" => wrap "pgtype.Bool"
  | "inet" => wrap "pgtype.Inet"
  | "character varying" => wrap "pgtype.Varchar"
  | "money" | "text" | "character" => wrap "pgtype.Text"
  | "smallint" | "smallserial" => wrap "pgtype.Int2"
  | "integer" | "serial" => wrap "pgtype.Int4"
  | "bigint" | "bigserial" => wrap "pgtype.Int8"
  | "real" => wrap "pgtype.Float4"
  | "double precision" => wrap "pgtype.Float8"
  | "numeric" => wrap "pgtype.Numeric"
  | "bytea" => wrap "pgtype.Bytea"
  | "date" => wrap "pgtype.Date"
  | "timestamp without time zone" => wrap "pgtype.Timestamp"
  | "timestamp with time zone" => wrap "pgtype.Timestamptz"
  | "time with time zone" | "time without time zone" => wrap "pgtype.Time"
  | "interval" => wrap "pgtype.Interval"
  | "\"char\"" => wrap "pgtype.QChar"
  | "bit" => wrap "pgtype.Bit"
  | "bit varying" | "\"any\"" => wrap "pgtype.Varbit"
  | "hstore" => wrap "pgtype.Hstore"
  | "uuid" => wrap "pgtype.UUID"
  | _ => ⟨"", "", false, asSlice⟩

/-- `postgrestypes.postgresNameToGoName` (the `std` family of
`database/sql` types). -/
def postgresNameToGoName (dt : String) (nullable : Bool) (asSlice : Bool)
    (int32Type uint32Type : String) : PgTypeRes :=
  match dt with
  | "boolean" =>
    if nullable then ⟨"sql.NullBool", "sql.NullBool\x7b\x7d", true, asSlice⟩
    else ⟨"bool", "false", true, asSlice⟩
  | "character" | "character varying" | "text" | "money" | "inet" =>
    if nullable then
      ⟨"sql.NullString", "sql.NullString\x7b\x7d", true, asSlice⟩
    else ⟨"string", "\"\"", true, asSlice⟩
  | "smallint" =>
    if nullable then ⟨"sql.NullInt64", "sql.NullInt64\x7b\x7d", true, asSlice⟩
    else ⟨"int16", "0", true, asSlice⟩
  | "integer" =>
    if nullable then ⟨"sql.NullInt64", "sql.NullInt64\x7b\x7d", true, asSlice⟩
    else ⟨int32Type, "0", true, asSlice⟩
  | "bigint" =>
    if nullable then ⟨"sql.NullInt64", "sql.NullInt64\x7b\x7d", true, asSlice⟩
    else ⟨"int64", "0", true, asSlice⟩
  | "smallserial" =>
    if nullable then ⟨"sql.NullInt64", "sql.NullInt64\x7b\x7d", true, asSlice⟩
    else ⟨"uint16", "0", true, asSlice⟩
  | "serial" =>
    if nullable then ⟨"sql.NullInt64", "sql.NullInt64\x7b\x7d", true, asSlice⟩
    else ⟨uint32Type, "0", true, asSlice⟩
  | "bigserial" =>
    if nullable then ⟨"sql.NullInt64", "sql.NullInt64\x7b\x7d", true, asSlice⟩
    else ⟨"uint64", "0", true, asSlice⟩
  | "real" =>
    if nullable then
      ⟨"sql.NullFloat64", "sql.NullFloat64\x7b\x7d", true, asSlice⟩
    else ⟨"float32", "0.0", true, asSlice⟩
  | "numeric" | "double precision" =>
    if nullable then
      ⟨"sql.NullFloat64", "sql.NullFloat64\x7b\x7d", true, asSlice⟩
    else ⟨"float64", "0.0", true, asSlice⟩
  | "bytea" => ⟨"byte", "", true, true⟩
  | "date" | "timestamp with time zone" | "time with time zone"
  | "time without time zone" | "timestamp without time zone" =>
    if nullable then ⟨"pq.NullTime", "pq.NullTime\x7b\x7d", true, asSlice⟩
    else ⟨"time.Time", "time.Time\x7b\x7d", true, asSlice⟩
  | "interval" => ⟨"*time.Duration", "", true, asSlice⟩
  | "\"char\"" | "bit" => ⟨"uint8", "uint8(0)", true, asSlice⟩
  | "\"any\"" | "bit varying" => ⟨"byte", "", true, true⟩
  | "hstore" => ⟨"hstore.Hstore", "", true, asSlice⟩
  | "uuid" => ⟨"uuid.UUID", "uuid.New()", true, asSlice⟩
  | _ => ⟨"", "", false, asSlice⟩

/-- `PgtypeMode.PostgresNameToPgtypeName`: mode dispatch over the three
lookup families. -/
def PgtypeMode.PostgresNameToPgtypeName (p : PgtypeMode) (dt : String)
    (nullable : Bool) (asSlice : Bool) (int32Type uint32Type : String) :
    PgTypeRes :=
  match p with
  | .PgtypeModeStd => postgresNameToGoName dt nullable asSlice int32Type uint32Type
  | .PgtypeModeFull => postgresNameToPgtypeName dt asSlice
  | .PgtypeModePointer =>
    let r := postgresNameToInternalPgtypeName dt asSlice int32Type uint32Type
    if nullable then ⟨"*" ++ r.typ, "nil", r.ok, r.asSlice⟩ else r
  | .PgtypeModePgtype =>
    if nullable then postgresNameToPgtypeName dt asSlice
    else postgresNameToInternalPgtypeName dt asSlice int32Type uint32Type

/-! ## Configuration (`internal.ArgType`) -/

/-- Modelled from the spec: `internal.ArgType` (its source file is not
under `src/`) is the configuration object; only the fields read by the
embedded code are carried. -/
structure ArgType where
  Schema : String
  DSN : String
  LoaderType : String
  IgnoreTables : List String
  IgnoreFields : List String
  Sqlx : Bool
  Int32Type : String
  Uint32Type : String
  PgtypeMode : PgtypeMode
  UseReversedEnumConstNames : Bool

/-- Accumulate a digit run into a number. -/
def digitsToNat (l : List Char) : Nat :=
  l.foldl (fun a c => a * 10 + (c.toNat - 48)) 0

/-- Modelled from the spec: `ArgType.ParsePrecision` (its source file is
not under `src/`) parses a parenthesized precision suffix such as
`numeric(10, 2)` out of a native type descriptor, returning the
descriptor without the suffix and the parsed precision; a descriptor
without such a suffix is returned unchanged with precision `0`. -/
def ParsePrecision (dt : List Char) : List Char × Nat :=
  let base := dt.takeWhile (fun c => !(c == '('))
  let suffix := dt.drop base.length
  match suffix with
  | [] => (dt, 0)
  | _ :: inner =>
    let digits := inner.takeWhile Char.isDigit
    if !digits.isEmpty && suffix.getLast? == some ')' then
      (base, digitsToNat digits)
    else (dt, 0)

/-! ## The postgres adapter (`src/loaders/postgres.go`) -/

def setofPrefixChars : List Char := "SETOF ".toList

/-- `loaders.PgParseType` on the character list of the native type
descriptor: handles `SETOF` recursion, the `[]` suffix, precision
extraction, mode lookup, the local-type fallback and the `StringSlice`
special case.  Each `SETOF` step strips six characters, so the character
count bounds the recursion depth; `fuel` carries that bound explicitly
(the exhausted-fuel branch is unreachable whenever `dt.length ≤ fuel`,
which `PgParseType` ensures). -/
def pgParseTypeFuel (args : ArgType) :
    Nat → List Char → Bool → Nat × String × String
  | 0, _, _ => (0, "", "")
  | fuel + 1, dt, nullable =>
    if setofPrefixChars.isPrefixOf dt then
      -- handle SETOF: recurse on the element type, never nullable
      let r := pgParseTypeFuel args fuel (dt.drop 6) false
      (0, "nil", "[]" ++ r.2.2)
    else
    -- determine if it is a slice
    let (dt1, asSlice0) :=
      if "[]".toList.isSuffixOf dt then (dt.dropLast.dropLast, true)
      else (dt, false)
    -- extract precision
    let (dt2, precision) := ParsePrecision dt1
    let res := args.PgtypeMode.PostgresNameToPgtypeName (String.mk dt2)
      nullable asSlice0 args.Int32Type args.Uint32Type
    -- fallback for unresolved types: strip a same-schema qualifier or
    -- treat the descriptor as a locally defined type
    let (typ, nilVal) :=
      if res.ok then (res.typ, res.nilVal)
      else if (args.Schema ++ ".").toList.isPrefixOf dt2 then
        let t :=
          SnakeToCamelIdentifier (String.mk (dt2.drop (args.Schema.length + 1)))
        (t, t ++ "(0)")
      else
        let t := SnakeToCamelIdentifier (String.mk dt2)
        (t, t ++ "\x7b\x7d")
    -- special case for []slice
    if typ == "string" && res.asSlice then
      (precision, "StringSlice\x7b\x7d", "StringSlice")
    else if res.asSlice then (precision, "nil", "[]" ++ typ)
    else (precision, nilVal, typ)

/-- `loaders.PgParseType`: parse a postgres type into a Go type; returns
`(precision, nil value, type name)`. -/
def PgParseType (args : ArgType) (dt : String) (nullable : Bool) :
    Nat × String × String :=
  pgParseTypeFuel args dt.toList.length dt.toList nullable

/-! ## The internal graph entities (`src/internal/loader.go` and the
internal types file)

The entity structures are read off their uses in `src/internal/loader.go`
(their declaring file is not under `src/`).  Fields named `Type` in Go
are named `Typ` here (`Type` is reserved in Lean).  Template-only
payloads — comment strings and the `Type.ForeignKeys` back-pointer
slice, which makes `Type` and `ForeignKey` mutually cyclic pointer
structures in Go — are not carried; the code paths that fill them are
still embedded for their error behavior. -/

/-- `internal.RelType`. -/
inductive RelType where
  | Table
  | View
  deriving Repr, DecidableEq

/-- Modelled from the spec: `RelType.String` (declared outside `src/`) —
the default engine-independent relation-kind strings. -/
def RelType.toStr : RelType → String
  | .Table => "TABLE"
  | .View => "VIEW"

/-- `loaders.PgRelkind`: the postgres `pg_class.relkind` strings (the Go
`default: panic` branch is unreachable over the two-constructor
`RelType`). -/
def PgRelkind : RelType → String
  | .Table => "r"
  | .View => "v"

/-- `internal.Field`: a resolved column of a relation.  `Col` is a
pointer in Go; everywhere a `Field` is built from catalog data the
pointer is non-nil, and the proc-parameter path that leaves it nil never
reads it, so it is carried by value here. -/
structure Field where
  Name : String
  Typ : String
  NilType : String
  Len : Nat
  Col : MColumn
  deriving Repr, DecidableEq

/-- The zero `models.Column`, standing in for a nil `Col` pointer that
is never dereferenced. -/
def zeroColumn : MColumn := ⟨"", "", false, false⟩

/-- `internal.Type` (a relation; named `TypeT` since `Type` is reserved). -/
structure TypeT where
  Name : String
  Schema : String
  RelTyp : RelType
  Fields : List Field
  Table : MTable
  PrimaryKey : Option Field
  PrimaryKeyFields : List Field
  Sqlx : Bool
  deriving Repr, DecidableEq

/-- `internal.ForeignKey`: a resolved foreign key.  Go fields
`Type`/`Field`/`RefType`/`RefField` are `Typ`/`Fld`/`RefTyp`/`RefFld`. -/
structure FKey where
  Schema : String
  Typ : TypeT
  Fld : Field
  RefTyp : TypeT
  RefFld : Field
  ForeignKey : MForeignKey
  Name : String
  deriving Repr, DecidableEq

/-- `internal.Index`: a resolved index (Go field `Type` is `Typ`). -/
structure IndexT where
  FuncName : String
  Schema : String
  Typ : TypeT
  Fields : List Field
  Index : MIndex
  deriving Repr, DecidableEq

/-- `internal.EnumValue`. -/
structure EnumValue where
  Name : String
  Val : MEnumValue
  deriving Repr, DecidableEq

/-- `internal.Enum` (Go field `Enum` is `Enm`). -/
structure Enum where
  Name : String
  Schema : String
  Values : List EnumValue
  Enm : MEnum
  ReverseConstNames : Bool
  deriving Repr, DecidableEq

/-- `internal.Proc` (Go field `Proc` is `Prc`, `Return` holds the
resolved return field). -/
structure Proc where
  Name : String
  Schema : String
  Params : List Field
  Return : Field
  ProcParams : String
  Prc : MProc
  deriving Repr, DecidableEq

/-- The template slots of `internal.templateType` passed to
`ArgType.ExecuteTemplate`. -/
inductive TemplateType where
  | EnumTemplate
  | ProcTemplate
  | TypeTemplate
  | ForeignKeyTemplate
  | IndexTemplate
  | QueryTypeTemplate
  | QueryTemplate
  deriving Repr, DecidableEq

/-- The result of `dburl.Parse`; only the `Unaliased` driver name is
read by the embedded code. -/
structure DBUrl where
  Unaliased : String
  deriving Repr, DecidableEq

/-- `internal.TypeLoader`: the per-adapter capability set.  The database
handle threaded through the Go query functions is implicit in the
modelled query functions; `EnumList` and `ProcList` are optional
capabilities (nil function fields in Go). -/
structure TypeLoader where
  ProcessRelkind : Option (RelType → String)
  ParseType : ArgType → String → Bool → Nat × String × String
  EnumList : Option (String → Except GoErr (List MEnum))
  EnumValueList : String → String → Except GoErr (List MEnumValue)
  ProcList : Option (String → Except GoErr (List MProc))
  ProcParamList : String → String → Except GoErr (List MProcParam)
  TableList : String → String → Except GoErr (List MTable)
  ColumnList : String → String → Except GoErr (List MColumn)
  ForeignKeyList : String → String → Except GoErr (List MForeignKey)
  IndexList : String → String → Except GoErr (List MIndex)
  IndexColumnList : String → String → String → Except GoErr (List MIndexColumn)

/-- `TypeLoader.Relkind`. -/
def TypeLoader.Relkind (tl : TypeLoader) (rt : RelType) : String :=
  match tl.ProcessRelkind with
  | some f => f rt
  | none => RelType.toStr rt

/-- The external collaborators of the graph builder, modelled as
oracles: `parseDSN` is the external `dburl.Parse`; `executeTemplate` is
`ArgType.ExecuteTemplate` (the template backend is out of scope, so the
data payload is not carried and the outcome may depend on template kind,
type name and sub-name); `randInt` is `rand.Int`, indexed by call order;
`buildIndexFuncName` is `ArgType.BuildIndexFuncName` and
`foreignKeyName` is `ArgType.ForeignKeyName` (both declared outside
`src/`, they only produce display names). -/
structure Oracle where
  parseDSN : String → Except GoErr DBUrl
  executeTemplate : TemplateType → String → String → Except GoErr Unit
  randInt : Nat → Nat
  buildIndexFuncName : IndexT → String
  foreignKeyName : MapL FKey → FKey → String

/-- Modelled from the spec: `internal.SingularizeIdentifier` (declared
outside `src/`) normalizes a relation or enum name to a camel-case
identifier; its singularization step delegates to the external
`inflector` library and is modelled as the identity on the word. -/
def SingularizeIdentifier (s : String) : String :=
  SnakeToCamelIdentifier s

/-- Case-insensitive membership of a column name in the ignore list
(`loader.go:552-561`). -/
def isIgnoredField (args : ArgType) (name : String) : Bool :=
  args.IgnoreFields.any (fun ig => goToLowerStr ig == goToLowerStr name)

/-- Case-insensitive membership of a table name in the ignore list
(`loader.go:477-483`). -/
def isIgnoredTable (args : ArgType) (name : String) : Bool :=
  args.IgnoreTables.any (fun ig => goToLowerStr ig == goToLowerStr name)

/-! ## The postgres catalog loaders that wrap raw queries
(`src/loaders/postgres.go`) -/

/-- The raw `models` queries used by `loaders.PgTables`, as oracles. -/
structure PgDB where
  PgTables : String → String → Except GoErr (List MTable)
  PgSequences : String → Except GoErr (List MSequence)
  CrAutoIncrements : String → Except GoErr (List MCrAutoincrement)

/-- `loaders.PgTables` (`postgres.go:146-193`): the postgres tables with
the manual-PK information added; a failure of the sequence or
autoincrement sub-query is replaced by an empty set ("Set it to an empty
set on error."), only the main table query's failure propagates. -/
def PgTables (db : PgDB) (schema relkind : String) :
    Except GoErr (List MTable) :=
  match db.PgTables schema relkind with
  | .error e => .error e
  | .ok rows =>
    let sequences := match db.PgSequences schema with
      | .ok s => s
      | .error _ => []
    let crAutoIncrements := match db.CrAutoIncrements schema with
      | .ok s => s
      | .error _ => []
    .ok (rows.map (fun row =>
      { TableName := row.TableName, Typ := row.Typ,
        ManualPk :=
          !(sequences.any (fun s => s.TableName == row.TableName) ||
            crAutoIncrements.any (fun s => s.TableName == row.TableName)) }))

/-- The database operations used by `loaders.PgQueryColumns`, as
oracles: `exec` is `DB.Exec`, `queryRowScan` is
`DB.QueryRow(q, arg).Scan`, `PgTableColumns` is
`models.PgTableColumns`. -/
structure QueryDB where
  exec : String → Except GoErr Unit
  queryRowScan : String → String → Except GoErr String
  PgTableColumns : String → String → Bool → Except GoErr (List MColumn)

/-- `loaders.PgQueryColumns` (`postgres.go:196-240`): create the
ephemeral view, look up the schema it landed in, load its columns, drop
the view.  The first component of the result is the trace of statements
passed to `DB.Exec`, so that the exit paths on which the `DROP VIEW` is
and is not executed are observable.  `randomID` models
`internal.GenRandomID()`.  Two behaviors of the Go control flow are
preserved faithfully: the early `return` on a schema-lookup failure
skips the drop, and the column-load error is never checked — it is
overwritten by the drop's error, so a failed column load with a
successful drop returns `ok` with the empty column list. -/
def PgQueryColumns (db : QueryDB) (randomID : String)
    (inspect : List String) : List String × Except GoErr (List MColumn) :=
  let xoid := "_xo_" ++ randomID
  let viewq := "CREATE VIEW " ++ xoid ++ " AS (" ++
    String.intercalate "\n" inspect ++ ")"
  match db.exec viewq with
  | .error e => ([viewq], .error e)
  | .ok _ =>
    let nspq := "SELECT n.nspname FROM pg_class c " ++
      "JOIN pg_namespace n ON n.oid = c.relnamespace WHERE c.relname = $1"
    match db.queryRowScan nspq xoid with
    | .error e => ([viewq], .error e)
    | .ok schema =>
      let result := match db.PgTableColumns schema xoid false with
        | .ok r => r
        | .error _ => []
      let result := result.map (fun col =>
        if col.DataType == "json" || col.DataType == "jsonb" then
          { col with DataType := col.ColumnName }
        else col)
      let dropq := "DROP VIEW " ++ xoid
      match db.exec dropq with
      | .error e => ([viewq, dropq], .error e)
      | .ok _ => ([viewq, dropq], .ok result)

/-! ## The schema graph builder (`src/internal/loader.go`) -/

/-- `TypeLoader.extractProperForeignKeys` (`loader.go:863-896`): on
CockroachDB, keep only raw foreign-key rows whose constraint name
contains their own column name (the append loop over the input list is a
filter); on every other engine return the list unchanged. -/
def extractProperForeignKeys (o : Oracle) (fkList : List MForeignKey)
    (dsn : String) : Except GoErr (List MForeignKey) :=
  match o.parseDSN dsn with
  | .error e => .error e
  | .ok url =>
    if url.Unaliased == "cockroachdb" then
      .ok (fkList.filter (fun fk => goContains fk.ForeignKeyName fk.ColumnName))
    else .ok fkList

/-- The field built for one non-ignored column in
`TypeLoader.LoadColumns` (`loader.go:568-573`). -/
def mkField (tl : TypeLoader) (args : ArgType) (c : MColumn) : Field :=
  let r := tl.ParseType args c.DataType (!c.NotNull)
  { Name := SnakeToCamelIdentifier c.ColumnName,
    Typ := r.2.2, NilType := r.2.1, Len := r.1, Col := c }

/-- The column loop of `TypeLoader.LoadColumns` (`loader.go:549-584`):
ignored columns are skipped; a primary-key column is appended to
`PrimaryKeyFields` and overwrites the single `PrimaryKey` slot; every
kept column is appended to `Fields`. -/
def loadColumnsLoop (tl : TypeLoader) (args : ArgType) :
    List MColumn → TypeT → TypeT
  | [], tpl => tpl
  | c :: rest, tpl =>
    if isIgnoredField args c.ColumnName then loadColumnsLoop tl args rest tpl
    else
      let f := mkField tl args c
      let tpl1 :=
        if c.IsPrimaryKey then
          { tpl with PrimaryKeyFields := tpl.PrimaryKeyFields ++ [f],
                     PrimaryKey := some f }
        else tpl
      loadColumnsLoop tl args rest { tpl1 with Fields := tpl1.Fields ++ [f] }

/-- `TypeLoader.LoadColumns` (`loader.go:539-587`). -/
def LoadColumns (tl : TypeLoader) (args : ArgType) (typeTpl : TypeT) :
    Except GoErr TypeT :=
  match tl.ColumnList args.Schema typeTpl.Table.TableName with
  | .error e => .error e
  | .ok columnList => .ok (loadColumnsLoop tl args columnList typeTpl)

/-- The row loop of `TypeLoader.GetTableForeignKeys`
(`loader.go:783-854`).  For each raw row: the owning field is looked up
in the relation's fields; the referenced relation is looked up in the
table map by native table name — when it is missing, Go's
`for _, f := range refTpl.Fields` dereferences the nil `refTpl` pointer
and panics (`nilDeref "refTpl"`) before the `refTpl == nil` error check
is reached; the referenced field is looked up in the referenced
relation, falling back to its primary key.  A missing owning or
referenced field is the `errors.New` consistency error.  An empty raw
constraint name is defaulted in place to `<table>_<column>_fkey`.  When
a map is being accumulated, the map key is the constraint name plus a
`rand.Int` suffix. -/
def getTableForeignKeysLoop (o : Oracle) (args : ArgType)
    (tableMap : MapL TypeT) (typeTpl : TypeT) :
    List MForeignKey → Option (MapL FKey) → Nat → List FKey →
    Except GoErr (List FKey × Option (MapL FKey) × Nat)
  | [], fkMap, rng, acc => .ok (acc, fkMap, rng)
  | fk :: rest, fkMap, rng, acc =>
    let col := typeTpl.Fields.find?
      (fun f => f.Col.ColumnName == fk.ColumnName)
    let refTplOpt := (tableMap.find?
      (fun kv => kv.2.Table.TableName == fk.RefTableName)).map
        (fun kv => kv.2)
    match refTplOpt with
    | none => .error (.nilDeref "refTpl")
    | some refTpl =>
      let refCol :=
        match refTpl.Fields.find?
          (fun f => f.Col.ColumnName == fk.RefColumnName) with
        | some f => some f
        | none => refTpl.PrimaryKey
      match col, refCol with
      | some c, some rc =>
        let fk1 :=
          if fk.ForeignKeyName == "" then
            { fk with ForeignKeyName :=
                typeTpl.Table.TableName ++ "_" ++ c.Col.ColumnName ++ "_fkey" }
          else fk
        let fkey : FKey := ⟨args.Schema, typeTpl, c, refTpl, rc, fk1, ""⟩
        match fkMap with
        | some m =>
          getTableForeignKeysLoop o args tableMap typeTpl rest
            (some (mapInsert m
              (fk1.ForeignKeyName ++ "_" ++ toString (o.randInt rng)) fkey))
            (rng + 1) (acc ++ [fkey])
        | none =>
          getTableForeignKeysLoop o args tableMap typeTpl rest none rng
            (acc ++ [fkey])
      | _, _ => .error (.goError "could not find col, refTpl, or refCol")

/-- `TypeLoader.GetTableForeignKeys` (`loader.go:773-857`); `rng` is the
index of the next `rand.Int` draw. -/
def GetTableForeignKeys (o : Oracle) (args : ArgType)
    (tableMap : MapL TypeT) (typeTpl : TypeT) (fkMap : Option (MapL FKey))
    (foreignKeyList : List MForeignKey) (rng : Nat) :
    Except GoErr (List FKey × Option (MapL FKey) × Nat) :=
  getTableForeignKeysLoop o args tableMap typeTpl foreignKeyList fkMap rng []

/-- `TypeLoader.LoadIndexColumns` (`loader.go:738-768`): each raw index
column is matched against the relation's fields by native column name;
an unmatched column is silently skipped (`continue`), a matched one is
appended in raw order. -/
def LoadIndexColumns (tl : TypeLoader) (args : ArgType) (ixTpl : IndexT) :
    Except GoErr IndexT :=
  match tl.IndexColumnList args.Schema ixTpl.Typ.Table.TableName
      ixTpl.Index.IndexName with
  | .error e => .error e
  | .ok indexCols =>
    .ok { ixTpl with
      Fields := ixTpl.Fields ++
        indexCols.filterMap (fun ic =>
          ixTpl.Typ.Fields.find? (fun f =>
            f.Col.ColumnName == ic.ColumnName)) }

/-- The index loop of `TypeLoader.LoadTableIndexes`
(`loader.go:680-703`): records whether a primary (or sqlite `pk`-origin)
index was processed, loads each index's columns, assigns the generated
accessor name and stores the index under `<table>_<indexname>`. -/
def loadTableIndexesLoop (tl : TypeLoader) (o : Oracle) (args : ArgType)
    (typeTpl : TypeT) :
    List MIndex → Bool → MapL IndexT → Except GoErr (Bool × MapL IndexT)
  | [], pri, ixMap => .ok (pri, ixMap)
  | ix :: rest, pri, ixMap =>
    let pri1 := pri || ix.IsPrimary || (ix.Origin == "pk")
    let ixTpl : IndexT := ⟨"", args.Schema, typeTpl, [], ix⟩
    match LoadIndexColumns tl args ixTpl with
    | .error e => .error e
    | .ok ixTpl1 =>
      let ixTpl2 := { ixTpl1 with FuncName := o.buildIndexFuncName ixTpl1 }
      loadTableIndexesLoop tl o args typeTpl rest pri1
        (mapInsert ixMap (typeTpl.Table.TableName ++ "_" ++ ix.IndexName)
          ixTpl2)

/-- The primary-key search of `TypeLoader.LoadTableIndexes`
(`loader.go:705-714`): the type's `PrimaryKey` slot, else the first
field whose column carries the primary-key flag. -/
def typePrimaryKeySearch (typeTpl : TypeT) : Option Field :=
  match typeTpl.PrimaryKey with
  | some f => some f
  | none => typeTpl.Fields.find? (fun f => f.Col.IsPrimaryKey)

/-- `TypeLoader.LoadTableIndexes` (`loader.go:670-735`): after the
catalog indexes, if no primary index was processed, the loader is not
`"ora"`, and a primary-key field is known, a synthesized unique+primary
index named `<table>_<pkcolumn>_pkey` over exactly that field is added
under that same key. -/
def LoadTableIndexes (tl : TypeLoader) (o : Oracle) (args : ArgType)
    (typeTpl : TypeT) (ixMap : MapL IndexT) : Except GoErr (MapL IndexT) :=
  match tl.IndexList args.Schema typeTpl.Table.TableName with
  | .error e => .error e
  | .ok indexList =>
    match loadTableIndexesLoop tl o args typeTpl indexList false ixMap with
    | .error e => .error e
    | .ok (priIxLoaded, ixMap1) =>
      match typePrimaryKeySearch typeTpl with
      | some pk =>
        if args.LoaderType != "ora" && !priIxLoaded then
          let ixName :=
            typeTpl.Table.TableName ++ "_" ++ pk.Col.ColumnName ++ "_pkey"
          .ok (mapInsert ixMap1 ixName
            ⟨typeTpl.Name ++ "By" ++ pk.Name, args.Schema, typeTpl, [pk],
             ⟨ixName, true, true, ""⟩⟩)
        else .ok ixMap1
      | none => .ok ixMap1

/-- `TypeLoader.LoadTableForeignKeys` (`loader.go:619-643`): list the raw
rows, run the corrective pass (its error is checked here, unlike in the
`Sqlx` path), then resolve them into the accumulating map. -/
def LoadTableForeignKeys (tl : TypeLoader) (o : Oracle) (args : ArgType)
    (tableMap : MapL TypeT) (typeTpl : TypeT) (fkMap : MapL FKey)
    (rng : Nat) : Except GoErr (MapL FKey × Nat) :=
  match tl.ForeignKeyList args.Schema typeTpl.Table.TableName with
  | .error e => .error e
  | .ok fkl =>
    match extractProperForeignKeys o fkl args.DSN with
    | .error e => .error e
    | .ok fkl1 =>
      match GetTableForeignKeys o args tableMap typeTpl (some fkMap) fkl1
          rng with
      | .error e => .error e
      | .ok (_, fkMapOpt, rng1) => .ok (fkMapOpt.getD fkMap, rng1)

/-- Sequential execution of a batch of template renderings, aborting on
the first error (each `ExecuteTemplate` call in the Go loops). -/
def execTemplates (o : Oracle) :
    List (TemplateType × String × String) → Except GoErr Unit
  | [] => .ok ()
  | (k, n, s) :: rest =>
    match o.executeTemplate k n s with
    | .error e => .error e
    | .ok _ => execTemplates o rest

/-- The per-table loop of `TypeLoader.LoadForeignKeys`
(`loader.go:593-600`). -/
def loadForeignKeysLoop (tl : TypeLoader) (o : Oracle) (args : ArgType)
    (tableMap : MapL TypeT) :
    List (String × TypeT) → MapL FKey → Nat → Except GoErr (MapL FKey × Nat)
  | [], m, rng => .ok (m, rng)
  | kv :: rest, m, rng =>
    match LoadTableForeignKeys tl o args tableMap kv.2 m rng with
    | .error e => .error e
    | .ok (m1, rng1) => loadForeignKeysLoop tl o args tableMap rest m1 rng1

/-- `TypeLoader.LoadForeignKeys` (`loader.go:590-616`): accumulate all
tables' foreign keys, assign display names through
`args.ForeignKeyName`, render the templates. -/
def LoadForeignKeys (tl : TypeLoader) (o : Oracle) (args : ArgType)
    (tableMap : MapL TypeT) (rng : Nat) : Except GoErr (MapL FKey × Nat) :=
  match loadForeignKeysLoop tl o args tableMap tableMap [] rng with
  | .error e => .error e
  | .ok (m, rng1) =>
    let m1 := m.map (fun kv => (kv.1, { kv.2 with Name := o.foreignKeyName m kv.2 }))
    match execTemplates o (m1.map (fun kv =>
        (TemplateType.ForeignKeyTemplate, kv.2.Typ.Name,
         kv.2.ForeignKey.ForeignKeyName))) with
    | .error e => .error e
    | .ok _ => .ok (m1, rng1)

/-- The per-table loop of `TypeLoader.LoadIndexes`
(`loader.go:649-656`). -/
def loadIndexesLoop (tl : TypeLoader) (o : Oracle) (args : ArgType) :
    List (String × TypeT) → MapL IndexT → Except GoErr (MapL IndexT)
  | [], m => .ok m
  | kv :: rest, m =>
    match LoadTableIndexes tl o args kv.2 m with
    | .error e => .error e
    | .ok m1 => loadIndexesLoop tl o args rest m1

/-- `TypeLoader.LoadIndexes` (`loader.go:646-667`). -/
def LoadIndexes (tl : TypeLoader) (o : Oracle) (args : ArgType)
    (tableMap : MapL TypeT) : Except GoErr (MapL IndexT) :=
  match loadIndexesLoop tl o args tableMap [] with
  | .error e => .error e
  | .ok m =>
    match execTemplates o (m.map (fun kv =>
        (TemplateType.IndexTemplate, kv.2.Typ.Name, kv.2.Index.IndexName))) with
    | .error e => .error e
    | .ok _ => .ok m

/-- `TypeLoader.LoadEnumValues` (`loader.go:345-372`): the generated
constant name has a redundant enum-name suffix chopped off
(case-insensitively), unless that would leave it empty. -/
def LoadEnumValues (tl : TypeLoader) (args : ArgType) (enumTpl : Enum) :
    Except GoErr Enum :=
  match tl.EnumValueList args.Schema enumTpl.Enm.EnumName with
  | .error e => .error e
  | .ok enumValues =>
    .ok { enumTpl with Values := enumTpl.Values ++ enumValues.map (fun ev =>
      let name := SnakeToCamelIdentifier ev.EnumValue
      let name1 :=
        if (goToLower enumTpl.Name.toList).isSuffixOf
            (goToLower name.toList) then
          let n :=
            String.mk (name.toList.take (name.length - enumTpl.Name.length))
          if n.length > 0 then n else name
        else name
      ⟨name1, ev⟩) }

/-- The enum loop of `TypeLoader.LoadEnums` (`loader.go:313-331`); the
write into `args.KnownTypeMap` is dropped because nothing in the
embedded code reads it (it is consumed by the template backend). -/
def loadEnumsLoop (tl : TypeLoader) (args : ArgType) :
    List MEnum → MapL Enum → Except GoErr (MapL Enum)
  | [], m => .ok m
  | e :: rest, m =>
    let enumTpl : Enum :=
      ⟨SingularizeIdentifier e.EnumName, args.Schema, [], e,
       args.UseReversedEnumConstNames⟩
    match LoadEnumValues tl args enumTpl with
    | .error er => .error er
    | .ok enumTpl1 =>
      loadEnumsLoop tl args rest (mapInsert m enumTpl1.Name enumTpl1)

/-- `TypeLoader.LoadEnums` (`loader.go:299-342`): skipped silently when
the adapter does not supply `EnumList`. -/
def LoadEnums (tl : TypeLoader) (o : Oracle) (args : ArgType) :
    Except GoErr (MapL Enum) :=
  match tl.EnumList with
  | none => .ok []
  | some enumListF =>
    match enumListF args.Schema with
    | .error e => .error e
    | .ok enumList =>
      match loadEnumsLoop tl args enumList [] with
      | .error e => .error e
      | .ok m =>
        match execTemplates o (m.map (fun kv =>
            (TemplateType.EnumTemplate, kv.2.Name, ""))) with
        | .error e => .error e
        | .ok _ => .ok m

/-- The parameter loop of `TypeLoader.LoadProcParams`
(`loader.go:442-458`): positional names `v0, v1, …`; only the type slot
of the parameter field is filled. -/
def loadProcParamsLoop (tl : TypeLoader) (args : ArgType) :
    List MProcParam → Nat → Proc → Proc
  | [], _, procTpl => procTpl
  | p :: rest, i, procTpl =>
    let paramTpl : Field :=
      ⟨"v" ++ toString i,
       (tl.ParseType args (String.mk (goTrimSpace p.ParamType.toList))
         false).2.2,
       "", 0, zeroColumn⟩
    loadProcParamsLoop tl args rest (i + 1)
      { procTpl with
        ProcParams :=
          (if procTpl.ProcParams != "" then procTpl.ProcParams ++ ", "
           else procTpl.ProcParams) ++ p.ParamType,
        Params := procTpl.Params ++ [paramTpl] }

/-- `TypeLoader.LoadProcParams` (`loader.go:432-461`). -/
def LoadProcParams (tl : TypeLoader) (args : ArgType) (procTpl : Proc) :
    Except GoErr Proc :=
  match tl.ProcParamList args.Schema procTpl.Prc.ProcName with
  | .error e => .error e
  | .ok paramList => .ok (loadProcParamsLoop tl args paramList 0 procTpl)

/-- The proc loop of `TypeLoader.LoadProcs` (`loader.go:391-418`):
leading underscores are stripped off the name; the return type is
resolved non-nullable. -/
def loadProcsLoop (tl : TypeLoader) (args : ArgType) :
    List MProc → MapL Proc → Except GoErr (MapL Proc)
  | [], m => .ok m
  | p :: rest, m =>
    let name := String.mk (p.ProcName.toList.dropWhile (fun c => c == '_'))
    let r := tl.ParseType args p.ReturnType false
    let procTpl : Proc :=
      ⟨SnakeToCamelIdentifier name, args.Schema, [],
       ⟨"", r.2.2, r.2.1, 0, zeroColumn⟩, "", p⟩
    match LoadProcParams tl args procTpl with
    | .error e => .error e
    | .ok procTpl1 => loadProcsLoop tl args rest (mapInsert m p.ProcName procTpl1)

/-- `TypeLoader.LoadProcs` (`loader.go:375-429`): skipped silently when
the adapter does not supply `ProcList`. -/
def LoadProcs (tl : TypeLoader) (o : Oracle) (args : ArgType) :
    Except GoErr (MapL Proc) :=
  match tl.ProcList with
  | none => .ok []
  | some procListF =>
    match procListF args.Schema with
    | .error e => .error e
    | .ok procList =>
      match loadProcsLoop tl args procList [] with
      | .error e => .error e
      | .ok m =>
        match execTemplates o (m.map (fun kv =>
            (TemplateType.ProcTemplate, "sp_" ++ kv.2.Name, ""))) with
        | .error e => .error e
        | .ok _ => .ok m

/-- The table loop of `TypeLoader.LoadRelkind` (`loader.go:474-505`):
ignored tables are skipped; each kept table's columns are loaded and the
relation is stored under its native table name. -/
def loadRelkindLoop (tl : TypeLoader) (args : ArgType) (relType : RelType) :
    List MTable → MapL TypeT → Except GoErr (MapL TypeT)
  | [], m => .ok m
  | ti :: rest, m =>
    if isIgnoredTable args ti.TableName then
      loadRelkindLoop tl args relType rest m
    else
      match LoadColumns tl args
        ⟨SingularizeIdentifier ti.TableName, args.Schema, relType, [], ti,
         none, [], false⟩ with
      | .error e => .error e
      | .ok typeTpl1 =>
        loadRelkindLoop tl args relType rest (mapInsert m ti.TableName typeTpl1)

/-- The template loop of `TypeLoader.LoadRelkind` (`loader.go:508-533`):
sets `Sqlx`, and in `Sqlx` mode lists and resolves the per-table foreign
keys (the corrective pass's error is overwritten before it is checked,
so a failed pass degrades to an empty row list; `GetTableForeignKeys`
runs with a nil map and its error does propagate; the resulting
`t.ForeignKeys` slice is template-only and not carried).  Values are
rebuilt under their existing keys, so the key set is unchanged.  The per-table `Sqlx` body is
`loadRelkindStep`. -/
def loadRelkindStep (tl : TypeLoader) (o : Oracle) (args : ArgType)
    (tableMap : MapL TypeT) (t : TypeT) : Except GoErr TypeT :=
  if args.Sqlx then
    match tl.ForeignKeyList args.Schema t.Table.TableName with
    | .error e => .error e
    | .ok fkl =>
      let fkl1 := match extractProperForeignKeys o fkl args.DSN with
        | .ok l => l
        | .error _ => []
      match GetTableForeignKeys o args tableMap t none fkl1 0 with
      | .error e => .error e
      | .ok _ => .ok t
  else .ok t

def loadRelkindFinish (tl : TypeLoader) (o : Oracle) (args : ArgType)
    (tableMap : MapL TypeT) :
    List (String × TypeT) → Except GoErr (MapL TypeT)
  | [] => .ok []
  | kv :: rest =>
    match loadRelkindStep tl o args tableMap { kv.2 with Sqlx := args.Sqlx } with
    | .error e => .error e
    | .ok t1 =>
      match o.executeTemplate .TypeTemplate t1.Name "" with
      | .error e => .error e
      | .ok _ =>
        match loadRelkindFinish tl o args tableMap rest with
        | .error e => .error e
        | .ok restMap => .ok ((kv.1, t1) :: restMap)

/-- `TypeLoader.LoadRelkind` (`loader.go:464-536`). -/
def LoadRelkind (tl : TypeLoader) (o : Oracle) (args : ArgType)
    (relType : RelType) : Except GoErr (MapL TypeT) :=
  match tl.TableList args.Schema (tl.Relkind relType) with
  | .error e => .error e
  | .ok tableList =>
    match loadRelkindLoop tl args relType tableList [] with
    | .error e => .error e
    | .ok m => loadRelkindFinish tl o args m m

/-- The merge of the view map into the table map in
`TypeLoader.LoadSchema` (`loader.go:279-281`): plain Go map assignment
per view entry, so a view overwrites a same-named table. -/
def mergeTableMap (tableMap viewMap : MapL TypeT) : MapL TypeT :=
  viewMap.foldl (fun acc kv => mapInsert acc kv.1 kv.2) tableMap

/-- The graph state built by a successful `TypeLoader.LoadSchema` run;
the Go function only returns the error, handing the state to the
template backend, so the embedding returns the state for observation. -/
structure SchemaResult where
  tableMap : MapL TypeT
  fkMap : MapL FKey
  ixMap : MapL IndexT

/-- `TypeLoader.LoadSchema` (`loader.go:251-296`): enums, procs, tables,
views, merge (views overwrite tables), foreign keys, indexes; each
phase's error aborts the build. -/
def LoadSchema (tl : TypeLoader) (o : Oracle) (args : ArgType) (rng : Nat) :
    Except GoErr SchemaResult :=
  match LoadEnums tl o args with
  | .error e => .error e
  | .ok _ =>
    match LoadProcs tl o args with
    | .error e => .error e
    | .ok _ =>
      match LoadRelkind tl o args .Table with
      | .error e => .error e
      | .ok tableMap =>
        match LoadRelkind tl o args .View with
        | .error e => .error e
        | .ok viewMap =>
          let merged := mergeTableMap tableMap viewMap
          match LoadForeignKeys tl o args merged rng with
          | .error e => .error e
          | .ok (fkMap, _) =>
            match LoadIndexes tl o args merged with
            | .error e => .error e
            | .ok ixMap => .ok ⟨merged, fkMap, ixMap⟩

/-! ## Concrete fixtures

A small postgres-flavoured deployment used to evaluate the embedded code
at concrete inputs: two tables `users` and `posts`, a foreign key
`posts.author_id → users.id`, and an ignore-list entry `Secret_Col`
matching the column `secret_col` case-insensitively. -/

/-- A benign oracle for a postgres DSN: templates succeed, `rand.Int`
draws are `n + 7`. -/
def pgOracle : Oracle :=
  ⟨fun _ => .ok ⟨"postgres"⟩, fun _ _ _ => .ok (), fun n => n + 7,
   fun ix => ix.Typ.Name ++ "By", fun _ fk => fk.ForeignKey.ForeignKeyName⟩

/-- The same oracle, with the DSN resolving to CockroachDB. -/
def crOracle : Oracle :=
  ⟨fun _ => .ok ⟨"cockroachdb"⟩, fun _ _ _ => .ok (), fun n => n + 7,
   fun ix => ix.Typ.Name ++ "By", fun _ fk => fk.ForeignKey.ForeignKeyName⟩

/-- Standard-mode configuration without ignore lists. -/
def baseArgs : ArgType :=
  ⟨"public", "postgres://user@host/db", "postgres", [], [], false,
   "int32", "uint32", .PgtypeModeStd, false⟩

/-- Standard-mode configuration ignoring `Secret_Col`
(case-insensitively). -/
def ignoreArgs : ArgType := { baseArgs with IgnoreFields := ["Secret_Col"] }

def usersColumns : List MColumn :=
  [⟨"id", "integer", true, true⟩, ⟨"name", "text", true, false⟩,
   ⟨"secret_col", "text", true, false⟩]

def postsColumns : List MColumn :=
  [⟨"id", "integer", true, true⟩, ⟨"author_id", "integer", true, false⟩]

/-- A table with a composite primary key over `(a, b)`. -/
def compositeColumns : List MColumn :=
  [⟨"a", "integer", true, true⟩, ⟨"name", "text", true, false⟩,
   ⟨"b", "integer", true, true⟩]

/-- The demo adapter: catalog queries answered from the fixture data. -/
def demoLoader : TypeLoader :=
  { ProcessRelkind := some PgRelkind
    ParseType := PgParseType
    EnumList := none
    EnumValueList := fun _ _ => .ok []
    ProcList := none
    ProcParamList := fun _ _ => .ok []
    TableList := fun _ rk =>
      if rk == "r" then .ok [⟨"users", "r", false⟩, ⟨"posts", "r", true⟩]
      else .ok [⟨"users", "v", false⟩]
    ColumnList := fun _ t =>
      if t == "users" then .ok usersColumns
      else if t == "posts" then .ok postsColumns
      else if t == "comp" then .ok compositeColumns
      else .ok []
    ForeignKeyList := fun _ t =>
      if t == "posts" then
        .ok [⟨"posts_author_id_fkey", "author_id", "users", "id"⟩]
      else .ok []
    IndexList := fun _ _ => .ok []
    IndexColumnList := fun _ _ ixname =>
      if ixname == "secret_idx" then .ok [⟨"secret_col", 2⟩] else .ok [] }

/-- The `users` relation before column loading. -/
def usersInit : TypeT :=
  ⟨"Users", "public", .Table, [], ⟨"users", "r", false⟩, none, [], false⟩

/-- The `posts` relation before column loading. -/
def postsInit : TypeT :=
  ⟨"Posts", "public", .Table, [], ⟨"posts", "r", true⟩, none, [], false⟩

/-- `users` with its columns loaded under the ignore list (so without
`secret_col`). -/
def usersType : TypeT :=
  match LoadColumns demoLoader ignoreArgs usersInit with
  | .ok t => t
  | .error _ => usersInit

/-- `users` with all columns loaded (no ignore list). -/
def usersTypeFull : TypeT :=
  match LoadColumns demoLoader baseArgs usersInit with
  | .ok t => t
  | .error _ => usersInit

/-- `posts` with its columns loaded. -/
def postsType : TypeT :=
  match LoadColumns demoLoader baseArgs postsInit with
  | .ok t => t
  | .error _ => postsInit

/-- The composite-key relation before column loading. -/
def compInit : TypeT :=
  ⟨"Comp", "public", .Table, [], ⟨"comp", "r", false⟩, none, [], false⟩

/-- The composite-key relation with its columns loaded. -/
def compType : TypeT :=
  match LoadColumns demoLoader baseArgs compInit with
  | .ok t => t
  | .error _ => compInit

/-- The resolved field for an `integer` column named `id` with the
primary-key flag. -/
def idIntegerField : Field :=
  mkField demoLoader baseArgs ⟨"id", "integer", true, true⟩

/-- An index over the ignored column `secret_col` of `users`, before
column resolution. -/
def secretIndexInit : IndexT :=
  ⟨"", "public", usersType, [], ⟨"secret_idx", false, false, ""⟩⟩

/-- A query-database oracle on which the ephemeral view is created
successfully but the schema lookup fails. -/
def lookupFailDB : QueryDB :=
  ⟨fun _ => .ok (), fun _ _ => .error (.goError "nspq failed"),
   fun _ _ _ => .ok []⟩

/-- A query-database oracle on which creation and schema lookup succeed
but the column load fails. -/
def columnsFailDB : QueryDB :=
  ⟨fun _ => .ok (), fun _ _ => .ok "public",
   fun _ _ _ => .error (.goError "columns failed")⟩

/-- A catalog on which the sequences sub-query fails while the table
list succeeds. -/
def seqFailPgDB : PgDB :=
  ⟨fun _ _ => .ok [⟨"t1", "r", false⟩],
   fun _ => .error (.goError "sequences query failed"), fun _ => .ok []⟩

/-- A catalog on which the main table-list query itself fails. -/
def tablesFailPgDB : PgDB :=
  ⟨fun _ _ => .error (.goError "tables query failed"),
   fun _ => .ok [], fun _ => .ok []⟩

/-- The CockroachDB corrective-pass fixture: only the first row's
constraint name contains its own column name. -/
def fkRowGood : MForeignKey :=
  ⟨"posts_author_id_fkey", "author_id", "users", "id"⟩

def fkRowSpurious : MForeignKey :=
  ⟨"unique_team_name_key", "team_id", "teams", "id"⟩

/-! ## Character-level lemmas (ASCII case mapping) -/

theorem char_isUpper_iff (c : Char) :
    c.isUpper = true ↔ 65 ≤ c.toNat ∧ c.toNat ≤ 90 := by
  unfold Char.isUpper
  rw [Bool.and_eq_true, decide_eq_true_iff, decide_eq_true_iff, ge_iff_le]
  rw [UInt32.le_def, UInt32.le_def, BitVec.le_def, BitVec.le_def]
  exact ⟨fun ⟨h1, h2⟩ => ⟨h1, h2⟩, fun ⟨h1, h2⟩ => ⟨h1, h2⟩⟩

theorem char_toNat_ofNat_valid (n : Nat) (h : n < 0xd800) :
    (Char.ofNat n).toNat = n := by
  unfold Char.ofNat
  rw [dif_pos (Or.inl h)]
  unfold Char.ofNatAux
  simp only [Char.toNat, UInt32.toNat, BitVec.toNat_ofNatLt]

theorem toLower_isUpper_false (c : Char) : (c.toLower).isUpper = false := by
  unfold Char.toLower
  by_cases h : c.toNat ≥ 65 ∧ c.toNat ≤ 90
  · rw [if_pos h, Bool.eq_false_iff]
    intro hu
    rw [char_isUpper_iff] at hu
    rw [char_toNat_ofNat_valid (c.toNat + 32) (by omega)] at hu
    omega
  · rw [if_neg h, Bool.eq_false_iff]
    intro hu
    rw [char_isUpper_iff] at hu
    exact h hu

theorem toLower_eq_self (c : Char) (h : c.isUpper = false) :
    c.toLower = c := by
  unfold Char.toLower
  rw [if_neg]
  intro hc
  rw [Bool.eq_false_iff] at h
  exact h (char_isUpper_iff c |>.mpr hc)

/-! ## Lemmas about the camel-to-snake scan -/

/-- `Peek` returns nothing when the head character is not uppercase. -/
theorem peek_not_upper (ini : Initialisms) (c : Char) (rest : List Char)
    (h : c.isUpper = false) : peek ini (c :: rest) = [] := by
  unfold peek
  split
  · rfl
  · cases hl : Nat.min (c :: rest).length ini.max with
    | zero => simp [hl]
    | succ n =>
      simp only [hl, List.take_succ_cons, List.takeWhile_cons, h]
      simp

/-- On input without uppercase characters the scan is the identity:
every chunk is a single character and no separator is ever inserted. -/
theorem camelToSnakeAux_no_upper (ini : Initialisms) (r : List Char)
    (h : ∀ c ∈ r, c.isUpper = false) :
    ∀ (lu ll : Bool), camelToSnakeAux ini r lu ll false = r := by
  induction r with
  | nil => intro lu ll; rw [camelToSnakeAux]
  | cons c rest ih =>
    intro lu ll
    have hc : c.isUpper = false := h c (List.mem_cons_self c rest)
    have hnext : nextChunk ini c rest lu false = [c] := by
      unfold nextChunk
      rw [peek_not_upper ini c rest hc]
      simp
    rw [camelToSnakeAux, hnext]
    simp only [hc, Bool.and_false, Bool.false_and, Bool.false_or, if_false,
      List.length_singleton, List.drop_succ_cons, List.drop_zero]
    rw [(by decide : decide (1 < 1) = false)]
    rw [ih (fun x hx => h x (List.mem_cons_of_mem c hx))]
    simp

/-! ## Lemmas about the Go-map model -/

theorem find?_overwrite {α : Type} (m : MapL α) (k : String) (v : α)
    (hany : m.any (fun kv => kv.1 == k) = true) :
    (m.map (fun kv => if kv.1 == k then (k, v) else kv)).find?
      (fun kv => kv.1 == k) = some (k, v) := by
  induction m with
  | nil => simp at hany
  | cons a rest ih =>
    simp only [List.map_cons]
    by_cases ha : (a.1 == k) = true
    · rw [if_pos ha]
      rw [List.find?_cons_of_pos]
      simp
    · rw [if_neg ha]
      rw [List.find?_cons_of_neg _ (by simpa using ha)]
      apply ih
      simp only [List.any_cons, ha, Bool.false_or] at hany
      exact hany

theorem mapLookup_mapInsert_self {α : Type} (m : MapL α) (k : String) (v : α) :
    mapLookup (mapInsert m k v) k = some v := by
  unfold mapInsert
  split
  · rename_i hany
    unfold mapLookup
    rw [find?_overwrite m k v hany]
    rfl
  · rename_i hany
    unfold mapLookup
    rw [List.find?_append]
    have hnone : m.find? (fun kv => kv.1 == k) = none := by
      rw [List.find?_eq_none]
      intro x hx
      intro hpx
      exact hany (List.any_eq_true.mpr ⟨x, hx, hpx⟩)
    rw [hnone]
    have hkk : (k == k) = true := by simp
    simp [List.find?, hkk]

theorem find?_overwrite_ne {α : Type} (m : MapL α) (k k' : String) (v : α)
    (h : ¬ k' = k) :
    ((m.map (fun kv => if kv.1 == k then (k, v) else kv)).find?
      (fun kv => kv.1 == k')).map (fun kv => kv.2) =
    (m.find? (fun kv => kv.1 == k')).map (fun kv => kv.2) := by
  induction m with
  | nil => simp
  | cons a rest ih =>
    simp only [List.map_cons]
    by_cases ha : (a.1 == k) = true
    · rw [if_pos ha]
      have ha' : a.1 = k := by simpa using ha
      have hk : ((k, v).1 == k') = false := by
        simp only []
        rw [beq_eq_false_iff_ne]
        intro hkk
        exact h hkk.symm
      have ha2 : (a.1 == k') = false := by
        rw [ha']
        rw [beq_eq_false_iff_ne]
        intro hkk
        exact h hkk.symm
      rw [@List.find?_cons_of_neg _ (fun kv => kv.1 == k') (k, v) _ (by simp [hk]),
          @List.find?_cons_of_neg _ (fun kv => kv.1 == k') a _ (by simp [ha2])]
      exact ih
    · rw [if_neg ha]
      by_cases hp : (a.1 == k') = true
      · rw [@List.find?_cons_of_pos _ (fun kv => kv.1 == k') a _ hp,
            @List.find?_cons_of_pos _ (fun kv => kv.1 == k') a _ hp]
      · rw [@List.find?_cons_of_neg _ (fun kv => kv.1 == k') a _ (by simpa using hp),
            @List.find?_cons_of_neg _ (fun kv => kv.1 == k') a _ (by simpa using hp)]
        exact ih

theorem mapLookup_mapInsert_ne {α : Type} (m : MapL α) (k k' : String)
    (v : α) (h : ¬ k' = k) :
    mapLookup (mapInsert m k v) k' = mapLookup m k' := by
  unfold mapInsert
  split
  · unfold mapLookup
    exact find?_overwrite_ne m k k' v h
  · unfold mapLookup
    rw [List.find?_append]
    have hkk : (k == k') = false := by
      rw [beq_eq_false_iff_ne]
      intro hkk
      exact h hkk.symm
    have : List.find? (fun kv => kv.1 == k') [(k, v)] = none := by
      simp [List.find?, hkk]
    rw [this]
    cases m.find? (fun kv => kv.1 == k') <;> simp

theorem mapLookup_eq_none_of_not_mem {α : Type} (m : MapL α) (k : String)
    (h : ¬ k ∈ mapKeys m) : mapLookup m k = none := by
  unfold mapLookup
  have : m.find? (fun kv => kv.1 == k) = none := by
    rw [List.find?_eq_none]
    intro x hx hpx
    apply h
    unfold mapKeys
    rw [List.mem_map]
    exact ⟨x, hx, by simpa using hpx⟩
  rw [this]
  rfl

theorem mapKeys_mapInsert_nodup {α : Type} (m : MapL α) (k : String) (v : α)
    (h : (mapKeys m).Nodup) : (mapKeys (mapInsert m k v)).Nodup := by
  unfold mapInsert
  split
  · rename_i hany
    have : mapKeys (m.map (fun kv => if kv.1 == k then (k, v) else kv)) =
        mapKeys m := by
      unfold mapKeys
      rw [List.map_map]
      apply List.map_congr_left
      intro kv _
      by_cases hkv : (kv.1 == k) = true
      · simp only [Function.comp, hkv, if_pos]
        exact (by simpa using hkv : kv.1 = k).symm
      · simp [Function.comp, hkv]
    rw [this]
    exact h
  · rename_i hany
    unfold mapKeys
    rw [List.map_append]
    rw [List.nodup_append]
    refine ⟨h, by simp, ?_⟩
    intro x hx
    simp only [List.map_cons, List.map_nil, List.mem_singleton]
    intro hxk
    subst hxk
    apply hany
    rw [List.any_eq_true]
    rw [List.mem_map] at hx
    obtain ⟨kv, hkv, hk1⟩ := hx
    exact ⟨kv, hkv, by simp [hk1]⟩

/-- Looking up a key after folding a key-distinct association list into a
base map by Go map assignment: an entry of the folded list wins, the
base map answers otherwise. -/
theorem foldl_mapInsert_lookup {α : Type} (vm : MapL α)
    (h : (mapKeys vm).Nodup) :
    ∀ (tm : MapL α) (k : String),
      mapLookup (vm.foldl (fun acc kv => mapInsert acc kv.1 kv.2) tm) k =
        match mapLookup vm k with
        | some v => some v
        | none => mapLookup tm k := by
  induction vm with
  | nil => intro tm k; simp [mapLookup, List.find?]
  | cons a rest ih =>
    intro tm k
    rw [List.foldl_cons]
    have hcons := h
    unfold mapKeys at hcons
    rw [List.map_cons, List.nodup_cons] at hcons
    obtain ⟨hnotmem, hrest⟩ := hcons
    rw [ih hrest]
    by_cases hk : k = a.1
    · have hnone : mapLookup rest k = none := by
        rw [hk]
        exact mapLookup_eq_none_of_not_mem rest a.1 hnotmem
      have hins : mapLookup (mapInsert tm a.1 a.2) k = some a.2 := by
        rw [hk]
        exact mapLookup_mapInsert_self tm a.1 a.2
      have hfind : mapLookup (a :: rest) k = some a.2 := by
        unfold mapLookup
        rw [@List.find?_cons_of_pos _ (fun kv => kv.1 == k) a rest
          (by simp [hk])]
        rfl
      rw [hnone, hfind]
      exact hins
    · rw [mapLookup_mapInsert_ne _ _ _ _ hk]
      have hfind : mapLookup (a :: rest) k = mapLookup rest k := by
        unfold mapLookup
        rw [@List.find?_cons_of_neg _ (fun kv => kv.1 == k) a rest
          (by simp; intro hq; exact hk hq.symm)]
      rw [hfind]

/-- The table/view merge of `LoadSchema`: on a key present in the
(key-distinct) view map, the merged map holds the view entry. -/
theorem mergeTableMap_lookup_view (tm vm : MapL TypeT)
    (h : (mapKeys vm).Nodup) (k : String) (v : TypeT)
    (hv : mapLookup vm k = some v) :
    mapLookup (mergeTableMap tm vm) k = some v := by
  unfold mergeTableMap
  rw [foldl_mapInsert_lookup vm h tm k, hv]

/-- The table/view merge of `LoadSchema`: on a key absent from the view
map, the merged map answers from the table map. -/
theorem mergeTableMap_lookup_table (tm vm : MapL TypeT)
    (h : (mapKeys vm).Nodup) (k : String)
    (hv : mapLookup vm k = none) :
    mapLookup (mergeTableMap tm vm) k = mapLookup tm k := by
  unfold mergeTableMap
  rw [foldl_mapInsert_lookup vm h tm k, hv]

/-- The table loop of `LoadRelkind` preserves key-distinctness of the
accumulating map. -/
theorem loadRelkindLoop_nodup (tl : TypeLoader) (args : ArgType)
    (relType : RelType) :
    ∀ (rows : List MTable) (m m' : MapL TypeT),
      (mapKeys m).Nodup → loadRelkindLoop tl args relType rows m = .ok m' →
      (mapKeys m').Nodup := by
  intro rows
  induction rows with
  | nil =>
    intro m m' hm hok
    rw [loadRelkindLoop] at hok
    cases hok
    exact hm
  | cons ti rest ih =>
    intro m m' hm hok
    rw [loadRelkindLoop] at hok
    split at hok
    · exact ih m m' hm hok
    · split at hok
      · cases hok
      · exact ih _ m' (mapKeys_mapInsert_nodup _ _ _ hm) hok

/-- The template loop of `LoadRelkind` rebuilds values under the same
keys. -/
theorem loadRelkindFinish_keys (tl : TypeLoader) (o : Oracle)
    (args : ArgType) (tableMap : MapL TypeT) :
    ∀ (l : List (String × TypeT)) (m' : MapL TypeT),
      loadRelkindFinish tl o args tableMap l = .ok m' →
      mapKeys m' = mapKeys l := by
  intro l
  induction l with
  | nil =>
    intro m' hok
    rw [loadRelkindFinish] at hok
    cases hok
    rfl
  | cons kv rest ih =>
    intro m' hok
    rw [loadRelkindFinish] at hok
    split at hok
    · cases hok
    · split at hok
      · cases hok
      · cases hrec : loadRelkindFinish tl o args tableMap rest with
        | error e => rw [hrec] at hok; cases hok
        | ok restMap =>
          rw [hrec] at hok
          cases hok
          unfold mapKeys
          rw [List.map_cons, List.map_cons]
          have hkeys := ih restMap hrec
          unfold mapKeys at hkeys
          rw [hkeys]

/-- A map produced by `LoadRelkind` has pairwise-distinct keys. -/
theorem LoadRelkind_nodup (tl : TypeLoader) (o : Oracle) (args : ArgType)
    (relType : RelType) (m : MapL TypeT)
    (hok : LoadRelkind tl o args relType = .ok m) :
    (mapKeys m).Nodup := by
  rw [LoadRelkind] at hok
  split at hok
  · cases hok
  · rename_i tableList htables
    split at hok
    · cases hok
    · rename_i m0 hloop
      have h0 : (mapKeys m0).Nodup :=
        loadRelkindLoop_nodup tl args relType tableList [] m0
          (by simp [mapKeys]) hloop
      have hkeys := loadRelkindFinish_keys tl o args m0 m0 m hok
      rw [hkeys]
      exact h0

/-! ## Characterizations of the column and index loops -/

/-- The column loop appends fields for exactly the non-ignored columns in
column order; the primary-key flagged ones among them are appended to
`PrimaryKeyFields` in the same order, and the last of them lands in the
single `PrimaryKey` slot. -/
theorem loadColumnsLoop_spec (tl : TypeLoader) (args : ArgType) :
    ∀ (cols : List MColumn) (tpl : TypeT),
      (loadColumnsLoop tl args cols tpl).Fields =
        tpl.Fields ++
          (cols.filter (fun c => !(isIgnoredField args c.ColumnName))).map
            (mkField tl args) ∧
      (loadColumnsLoop tl args cols tpl).PrimaryKeyFields =
        tpl.PrimaryKeyFields ++
          ((cols.filter (fun c => !(isIgnoredField args c.ColumnName))).filter
            (fun c => c.IsPrimaryKey)).map (mkField tl args) ∧
      (loadColumnsLoop tl args cols tpl).PrimaryKey =
        (match (((cols.filter
            (fun c => !(isIgnoredField args c.ColumnName))).filter
            (fun c => c.IsPrimaryKey)).map (mkField tl args)).getLast? with
         | some f => some f
         | none => tpl.PrimaryKey) := by
  intro cols
  induction cols with
  | nil =>
    intro tpl
    refine ⟨?_, ?_, ?_⟩ <;> simp [loadColumnsLoop]
  | cons c rest ih =>
    intro tpl
    by_cases hig : isIgnoredField args c.ColumnName = true
    · have hbody : loadColumnsLoop tl args (c :: rest) tpl =
          loadColumnsLoop tl args rest tpl := by
        rw [loadColumnsLoop, if_pos hig]
      rw [hbody]
      have hfil : (c :: rest).filter
          (fun c => !(isIgnoredField args c.ColumnName)) =
          rest.filter (fun c => !(isIgnoredField args c.ColumnName)) := by
        rw [List.filter_cons]
        simp [hig]
      rw [hfil]
      exact ih tpl
    · have hkeep : (c :: rest).filter
          (fun c => !(isIgnoredField args c.ColumnName)) =
          c :: rest.filter (fun c => !(isIgnoredField args c.ColumnName)) := by
        rw [List.filter_cons]
        simp [hig]
      by_cases hpk : c.IsPrimaryKey = true
      · have hbody : loadColumnsLoop tl args (c :: rest) tpl =
            loadColumnsLoop tl args rest
              { tpl with
                PrimaryKeyFields := tpl.PrimaryKeyFields ++ [mkField tl args c],
                PrimaryKey := some (mkField tl args c),
                Fields := tpl.Fields ++ [mkField tl args c] } := by
          rw [loadColumnsLoop, if_neg hig]
          simp only [hpk, if_pos]
        rw [hbody, hkeep]
        obtain ⟨ihF, ihP, ihK⟩ := ih { tpl with
          PrimaryKeyFields := tpl.PrimaryKeyFields ++ [mkField tl args c],
          PrimaryKey := some (mkField tl args c),
          Fields := tpl.Fields ++ [mkField tl args c] }
        refine ⟨?_, ?_, ?_⟩
        · rw [ihF]
          simp [List.append_assoc]
        · rw [ihP]
          rw [List.filter_cons]
          simp [hpk, List.append_assoc]
        · rw [ihK]
          rw [List.filter_cons]
          simp only [hpk, if_pos, List.map_cons]
          rw [List.getLast?_cons]
          cases hL : ((rest.filter
              (fun c => !(isIgnoredField args c.ColumnName))).filter
              (fun c => c.IsPrimaryKey)).map (mkField tl args) with
          | nil => simp
          | cons x xs =>
            rw [List.getLast?_cons]
            simp
      · have hbody : loadColumnsLoop tl args (c :: rest) tpl =
            loadColumnsLoop tl args rest
              { tpl with Fields := tpl.Fields ++ [mkField tl args c] } := by
          rw [loadColumnsLoop, if_neg hig]
          simp only [hpk]
          simp
        rw [hbody, hkeep]
        obtain ⟨ihF, ihP, ihK⟩ := ih { tpl with
          Fields := tpl.Fields ++ [mkField tl args c] }
        refine ⟨?_, ?_, ?_⟩
        · rw [ihF]
          simp [List.append_assoc]
        · rw [ihP]
          rw [List.filter_cons]
          simp [hpk]
        · rw [ihK]
          rw [List.filter_cons]
          simp [hpk]

/-- The index loop leaves the primary-index flag at its input value when
no processed row is flagged primary or of origin `"pk"`. -/
theorem loadTableIndexesLoop_pri (tl : TypeLoader) (o : Oracle)
    (args : ArgType) (typeTpl : TypeT) :
    ∀ (ixl : List MIndex) (pri : Bool) (ixMap : MapL IndexT)
      (res : Bool × MapL IndexT),
      loadTableIndexesLoop tl o args typeTpl ixl pri ixMap = .ok res →
      (∀ ix ∈ ixl, ix.IsPrimary = false ∧ (ix.Origin == "pk") = false) →
      res.1 = pri := by
  intro ixl
  induction ixl with
  | nil =>
    intro pri ixMap res hok _
    rw [loadTableIndexesLoop] at hok
    cases hok
    rfl
  | cons ix rest ih =>
    intro pri ixMap res hok hall
    obtain ⟨h1, h2⟩ := hall ix (List.mem_cons_self ix rest)
    rw [loadTableIndexesLoop] at hok
    simp only [h1, h2, Bool.or_false] at hok
    split at hok
    · cases hok
    · exact ih _ _ _ hok (fun i hi => hall i (List.mem_cons_of_mem ix hi))


/-! ## The claims -/

/-- C9: the camel-to-snake conversion is stable under repeated
application: for every initialism set and every input string `x`,
`CamelToSnake (CamelToSnake x) = CamelToSnake x`.  The first pass
lowercases its output; on input without uppercase characters the scan
inserts no separator and matches no initialism, and lowercasing is then
the identity. -/
theorem C9_camelToSnake_stable (ini : Initialisms) (x : String) :
    ini.CamelToSnake (ini.CamelToSnake x) = ini.CamelToSnake x := by
  unfold Initialisms.CamelToSnake
  by_cases hx : x = ""
  · rw [if_pos hx, if_pos rfl]
  · rw [if_neg hx]
    by_cases hy : String.mk (goToLower
        (camelToSnakeAux ini x.toList false false false)) = ""
    · rw [if_pos hy, hy]
    · rw [if_neg hy]
      have htl : (String.mk (goToLower
          (camelToSnakeAux ini x.toList false false false))).toList =
          goToLower (camelToSnakeAux ini x.toList false false false) := rfl
      rw [htl]
      have hnoup : ∀ c ∈ goToLower
          (camelToSnakeAux ini x.toList false false false),
          c.isUpper = false := by
        intro c hcm
        simp only [goToLower, List.mem_map] at hcm
        obtain ⟨a, _, rfl⟩ := hcm
        exact toLower_isUpper_false a
      rw [camelToSnakeAux_no_upper ini _ hnoup]
      congr 1
      simp only [goToLower, List.map_map]
      apply List.map_congr_left
      intro a _
      exact toLower_eq_self _ (toLower_isUpper_false a)

/-- C1: the claim says a raw FK row whose referenced table matches no
relation makes `GetTableForeignKeys` return a Go error value rather than
crash.  On the code the row loop ranges over `refTpl.Fields` before the
`refTpl == nil` check is reached, so that row dereferences a nil pointer
and panics; the consistency error is produced only when the missing
piece is the owning or referenced field.  Evaluating the embedding at
the failing input: the first conjunct is the missing-referenced-relation
row (panic), the second the missing-owning-field row on the same shape
(error value, showing the intended check is reachable otherwise). -/
theorem C1_missing_ref_relation_panics :
    GetTableForeignKeys pgOracle baseArgs [("posts", postsType)] postsType
      none [⟨"", "author_id", "users", "id"⟩] 0 =
      .error (.nilDeref "refTpl") ∧
    GetTableForeignKeys pgOracle baseArgs
      [("posts", postsType), ("users", usersTypeFull)] postsType none
      [⟨"", "no_such_col", "users", "id"⟩] 0 =
      .error (.goError "could not find col, refTpl, or refCol") :=
  ⟨rfl, rfl⟩

/-- C3 counterexample: resolving `"character varying[]"` with
`nullable = true` in `std` mode yields the generic slice of nullable
strings `[]sql.NullString` (zero value `nil`), not `StringSlice`: the
`typ == "string" && asSlice` special case does not fire because the
nullable lookup already resolved to `sql.NullString`. -/
theorem C3_nullable_varchar_array_not_stringslice :
    (PgParseType baseArgs "character varying[]" true).2 =
      ("nil", "[]sql.NullString") ∧
    ¬ (PgParseType baseArgs "character varying[]" true).2.2 = "StringSlice" :=
  ⟨rfl, by decide⟩

/-- C3 amended: in `std` mode (any schema, DSN, integer-type and other
configuration), `"character varying[]"` resolves to the dedicated
string-collection type `StringSlice` (zero value `StringSlice{}`) when
`nullable = false`; with `nullable = true` it resolves to the generic
slice of nullable strings `[]sql.NullString` (zero value `nil`). -/
theorem C3_amended_varchar_array (schema dsn loaderType i32 u32 : String)
    (ignT ignF : List String) (sqlx rev : Bool) :
    (PgParseType
        ⟨schema, dsn, loaderType, ignT, ignF, sqlx, i32, u32,
         .PgtypeModeStd, rev⟩
        "character varying[]" false).2 =
      ("StringSlice\x7b\x7d", "StringSlice") ∧
    (PgParseType
        ⟨schema, dsn, loaderType, ignT, ignF, sqlx, i32, u32,
         .PgtypeModeStd, rev⟩
        "character varying[]" true).2 =
      ("nil", "[]sql.NullString") :=
  ⟨rfl, rfl⟩

/-- C6 counterexample: in `PgTables` a failing `PgSequences` sub-query is
not propagated: on a catalog whose sequence query fails while the table
query succeeds, the call returns `ok` with every table defaulted to a
manual primary key, instead of returning the error. -/
theorem C6_sequences_error_swallowed :
    seqFailPgDB.PgSequences "public" =
      .error (.goError "sequences query failed") ∧
    PgTables seqFailPgDB "public" "r" = .ok [⟨"t1", "r", true⟩] :=
  ⟨rfl, rfl⟩

/-- C6 amended: only the main table-list query's error is propagated
from `PgTables`; a failure of the sequences sub-query (and likewise the
autoincrement sub-query) is swallowed and treated as the empty set, so
the call succeeds and `ManualPk` is computed from the remaining set
alone. -/
theorem C6_amended_pgtables_errors (db : PgDB) (schema relkind : String) :
    (∀ e, db.PgTables schema relkind = .error e →
       PgTables db schema relkind = .error e) ∧
    (∀ rows e, db.PgTables schema relkind = .ok rows →
       db.PgSequences schema = .error e →
       PgTables db schema relkind = .ok (rows.map (fun row =>
         { TableName := row.TableName, Typ := row.Typ,
           ManualPk := !((match db.CrAutoIncrements schema with
             | .ok l => l
             | .error _ => []).any
               (fun c => c.TableName == row.TableName)) }))) := by
  constructor
  · intro e he
    unfold PgTables
    rw [he]
  · intro rows e hrows hseq
    unfold PgTables
    rw [hrows, hseq]
    simp

/-- C6 witness: the amended behavior at concrete catalogs — the main
query's error propagates; the sequences failure is swallowed. -/
theorem C6_amended_witness :
    PgTables tablesFailPgDB "public" "r" =
      .error (.goError "tables query failed") ∧
    PgTables seqFailPgDB "public" "r" = .ok [⟨"t1", "r", true⟩] :=
  ⟨(C6_amended_pgtables_errors tablesFailPgDB "public" "r").1 _ rfl,
   (C6_amended_pgtables_errors seqFailPgDB "public" "r").2
     [⟨"t1", "r", false⟩] (.goError "sequences query failed") rfl rfl⟩

/-- C7: when the DSN resolves to CockroachDB, the corrective pass keeps
exactly the raw FK rows whose constraint name contains their own column
name, in order (a `filter`); on any other engine the input list is
returned unchanged. -/
theorem C7_extract_proper_foreign_keys (o : Oracle)
    (fkList : List MForeignKey) (dsn : String) (url : DBUrl)
    (hurl : o.parseDSN dsn = .ok url) :
    (url.Unaliased = "cockroachdb" →
       extractProperForeignKeys o fkList dsn =
         .ok (fkList.filter
           (fun fk => goContains fk.ForeignKeyName fk.ColumnName))) ∧
    (url.Unaliased ≠ "cockroachdb" →
       extractProperForeignKeys o fkList dsn = .ok fkList) := by
  simp only [extractProperForeignKeys, hurl]
  constructor
  · intro h
    rw [if_pos (by simp [h])]
  · intro h
    rw [if_neg (by simp [h])]

/-- C7 witness: of two raw rows on a CockroachDB DSN, where only the
first's constraint name contains its column name, only the first is
retained. -/
theorem C7_extract_witness :
    extractProperForeignKeys crOracle [fkRowGood, fkRowSpurious]
      "cockroachdb://user@host/db" = .ok [fkRowGood] :=
  (C7_extract_proper_foreign_keys crOracle [fkRowGood, fkRowSpurious]
    "cockroachdb://user@host/db" ⟨"cockroachdb"⟩ rfl).1 rfl


/-- C2 counterexample: when the schema-lookup query fails after the
`CREATE VIEW` succeeded, `PgQueryColumns` returns early — the statement
trace contains only the create, never the `DROP VIEW`, so the drop is
not executed on every exit path. -/
theorem C2_drop_skipped_on_lookup_failure :
    PgQueryColumns lookupFailDB "R1" ["SELECT 1"] =
      (["CREATE VIEW _xo_R1 AS (SELECT 1)"], .error (.goError "nspq failed")) ∧
    ¬ "DROP VIEW _xo_R1" ∈ (PgQueryColumns lookupFailDB "R1" ["SELECT 1"]).1 :=
  ⟨rfl, by decide⟩

/-- C2 amended: after a successful `CREATE VIEW`, the `DROP VIEW` is
executed whenever the schema lookup also succeeds — including when the
subsequent column load fails, since its error is not checked before the
drop — but when the schema lookup fails the function returns early with
that error and the drop is skipped, leaking the view. -/
theorem C2_amended_drop_paths (db : QueryDB) (rid : String)
    (inspect : List String)
    (hcreate : db.exec ("CREATE VIEW " ++ ("_xo_" ++ rid) ++ " AS (" ++
      String.intercalate "\n" inspect ++ ")") = .ok ()) :
    (∀ s, db.queryRowScan
        ("SELECT n.nspname FROM pg_class c " ++
         "JOIN pg_namespace n ON n.oid = c.relnamespace WHERE c.relname = $1")
        ("_xo_" ++ rid) = .ok s →
      ("DROP VIEW " ++ ("_xo_" ++ rid)) ∈ (PgQueryColumns db rid inspect).1) ∧
    (∀ e, db.queryRowScan
        ("SELECT n.nspname FROM pg_class c " ++
         "JOIN pg_namespace n ON n.oid = c.relnamespace WHERE c.relname = $1")
        ("_xo_" ++ rid) = .error e →
      PgQueryColumns db rid inspect =
        (["CREATE VIEW " ++ ("_xo_" ++ rid) ++ " AS (" ++
          String.intercalate "\n" inspect ++ ")"], .error e)) := by
  constructor
  · intro s hs
    simp only [PgQueryColumns, hcreate, hs]
    cases hdrop : db.exec ("DROP VIEW " ++ ("_xo_" ++ rid)) <;> simp [hdrop]
  · intro e he
    simp only [PgQueryColumns, hcreate, he]

/-- C2 witness: on a database where creation and lookup succeed but the
column load fails, the drop is still executed. -/
theorem C2_amended_witness :
    ("DROP VIEW " ++ ("_xo_" ++ "R1")) ∈
      (PgQueryColumns columnsFailDB "R1" ["SELECT 1"]).1 :=
  (C2_amended_drop_paths columnsFailDB "R1" ["SELECT 1"] rfl).1 "public" rfl

/-- C5: for a relation with a known primary-key field whose catalog
index list contains no primary (or `"pk"`-origin) index, and whose index
loop succeeded producing `m1`, `LoadTableIndexes` on a non-`"ora"`
loader returns `m1` with exactly one additional entry: key and index
name `<table>_<pkcolumn>_pkey`, flagged unique and primary, field list
exactly the primary-key field; on the `"ora"` loader the synthesis is
skipped and `m1` is returned unchanged. -/
theorem C5_implicit_pk_synthesis (tl : TypeLoader) (o : Oracle)
    (args : ArgType) (typeTpl : TypeT) (ixMap : MapL IndexT)
    (ixl : List MIndex) (pri : Bool) (m1 : MapL IndexT) (pk : Field)
    (hlist : tl.IndexList args.Schema typeTpl.Table.TableName = .ok ixl)
    (hnone : ∀ ix ∈ ixl, ix.IsPrimary = false ∧ ix.Origin ≠ "pk")
    (hloop : loadTableIndexesLoop tl o args typeTpl ixl false ixMap =
      .ok (pri, m1))
    (hpk : typePrimaryKeySearch typeTpl = some pk) :
    (args.LoaderType ≠ "ora" →
       LoadTableIndexes tl o args typeTpl ixMap =
         .ok (mapInsert m1
           (typeTpl.Table.TableName ++ "_" ++ pk.Col.ColumnName ++ "_pkey")
           ⟨typeTpl.Name ++ "By" ++ pk.Name, args.Schema, typeTpl, [pk],
            ⟨typeTpl.Table.TableName ++ "_" ++ pk.Col.ColumnName ++ "_pkey",
             true, true, ""⟩⟩)) ∧
    (args.LoaderType = "ora" →
       LoadTableIndexes tl o args typeTpl ixMap = .ok m1) := by
  have hpri : pri = false := by
    apply loadTableIndexesLoop_pri tl o args typeTpl ixl false ixMap (pri, m1)
      hloop
    intro ix hix
    obtain ⟨ha, hb⟩ := hnone ix hix
    exact ⟨ha, by simp [hb]⟩
  subst hpri
  constructor
  · intro h
    have hne : (args.LoaderType != "ora") = true := by
      rw [bne_iff_ne]
      exact h
    simp only [LoadTableIndexes, hlist, hloop, hpk, hne]
    simp
  · intro h
    have heq : (args.LoaderType != "ora") = false := by
      simp [h]
    simp only [LoadTableIndexes, hlist, hloop, hpk, heq]
    simp

/-- C5 witness: on the fixture, `users` has primary key `id` and an
empty catalog index list, so exactly the synthesized `users_id_pkey`
index (unique, primary, over the `id` field) is produced. -/
theorem C5_witness :
    LoadTableIndexes demoLoader pgOracle baseArgs usersTypeFull [] =
      .ok [("users_id_pkey",
        ⟨"UsersByID", "public", usersTypeFull, [idIntegerField],
         ⟨"users_id_pkey", true, true, ""⟩⟩)] :=
  (C5_implicit_pk_synthesis demoLoader pgOracle baseArgs usersTypeFull []
    [] false [] idIntegerField rfl (by simp) rfl rfl).1 (by decide)

/-- C10: after loading columns into a fresh relation,
`PrimaryKeyFields` holds exactly the non-ignored primary-key-flagged
fields in column order (it equals the primary-key filter of the field
list, whose columns are exactly the non-ignored catalog columns in
order), and the single `PrimaryKey` slot holds the last of them — so for
a composite key the slot holds the last-declared primary-key column. -/
theorem C10_primary_key_fields (tl : TypeLoader) (args : ArgType)
    (tpl tpl' : TypeT) (cols : List MColumn)
    (hF : tpl.Fields = []) (hP : tpl.PrimaryKeyFields = [])
    (hK : tpl.PrimaryKey = none)
    (hcols : tl.ColumnList args.Schema tpl.Table.TableName = .ok cols)
    (hok : LoadColumns tl args tpl = .ok tpl') :
    tpl'.Fields.map (fun f => f.Col) =
      cols.filter (fun c => !(isIgnoredField args c.ColumnName)) ∧
    tpl'.PrimaryKeyFields =
      tpl'.Fields.filter (fun f => f.Col.IsPrimaryKey) ∧
    tpl'.PrimaryKey = tpl'.PrimaryKeyFields.getLast? := by
  unfold LoadColumns at hok
  rw [hcols] at hok
  cases hok
  obtain ⟨hF', hP', hK'⟩ := loadColumnsLoop_spec tl args cols tpl
  rw [hF, List.nil_append] at hF'
  rw [hP, List.nil_append] at hP'
  rw [hK] at hK'
  refine ⟨?_, ?_, ?_⟩
  · rw [hF', List.map_map]
    have hcong : ∀ c ∈ cols.filter
        (fun c => !(isIgnoredField args c.ColumnName)),
        ((fun f => f.Col) ∘ mkField tl args) c = c := fun c _ => rfl
    rw [List.map_congr_left hcong]
    simp
  · rw [hP', hF', List.filter_map]
    have hcomp : ((fun f => f.Col.IsPrimaryKey) ∘ mkField tl args) =
        (fun c => c.IsPrimaryKey) := funext (fun c => rfl)
    rw [hcomp]
  · rw [hK', hP']
    cases hL : (((cols.filter
        (fun c => !(isIgnoredField args c.ColumnName))).filter
        (fun c => c.IsPrimaryKey)).map (mkField tl args)).getLast? <;>
      simp [hL]

/-- C10 witness: the composite-key fixture `(a, b)` — both fields enter
`PrimaryKeyFields` in column order, and the `PrimaryKey` slot holds the
last-declared one. -/
theorem C10_composite_witness :
    (compType.Fields.map (fun f => f.Col) =
      compositeColumns.filter
        (fun c => !(isIgnoredField baseArgs c.ColumnName)) ∧
    compType.PrimaryKeyFields =
      compType.Fields.filter (fun f => f.Col.IsPrimaryKey) ∧
    compType.PrimaryKey = compType.PrimaryKeyFields.getLast?) ∧
    compType.PrimaryKey =
      some (mkField demoLoader baseArgs ⟨"b", "integer", true, true⟩) :=
  ⟨C10_primary_key_fields demoLoader baseArgs compInit compType
    compositeColumns rfl rfl rfl rfl rfl, rfl⟩


/-- The graph produced by a full `LoadSchema` run on the fixture (the
fixture's view list names a view `users`, colliding with the table
`users`). -/
def demoSchema : SchemaResult :=
  match LoadSchema demoLoader pgOracle baseArgs 0 with
  | .ok r => r
  | .error _ => ⟨[], [], []⟩

/-- The fixture's view map. -/
def demoViewMap : MapL TypeT :=
  match LoadRelkind demoLoader pgOracle baseArgs .View with
  | .ok m => m
  | .error _ => []

/-- The fixture's `users` view entry. -/
def demoUsersView : TypeT :=
  match mapLookup demoViewMap "users" with
  | some t => t
  | none => usersInit

/-- C4 counterexample: with `Secret_Col` on the ignore list, the column
`secret_col` never enters the relation's fields (first two conjuncts,
matched case-insensitively) — but an index whose raw rows reference that
column does not fail with a consistency error: `LoadIndexColumns`
succeeds and silently omits the field (last two conjuncts), leaving the
index unchanged. -/
theorem C4_ignored_column_index_no_error :
    LoadColumns demoLoader ignoreArgs usersInit = .ok usersType ∧
    usersType.Fields.map (fun f => f.Col.ColumnName) = ["id", "name"] ∧
    demoLoader.IndexColumnList "public" "users" "secret_idx" =
      .ok [⟨"secret_col", 2⟩] ∧
    LoadIndexColumns demoLoader ignoreArgs secretIndexInit =
      .ok secretIndexInit :=
  ⟨rfl, rfl, rfl, rfl⟩

/-- C4 amended: (1) no ignored column's field ever enters a freshly
loaded relation; (2) a foreign-key row whose owning column resolves to
no field — in particular an ignored one — aborts with the consistency
error, provided its referenced table resolves (otherwise C1's panic
fires first); (3) an index row referencing an unmatched (for example
ignored) column is silently skipped, the call succeeding with the field
omitted; (4) a foreign-key row whose referenced column is unmatched
(for example ignored) silently falls back to the referenced relation's
primary key instead of failing. -/
theorem C4_amended_ignored_column :
    (∀ (tl : TypeLoader) (args : ArgType) (tpl tpl' : TypeT),
       tpl.Fields = [] → LoadColumns tl args tpl = .ok tpl' →
       ∀ f ∈ tpl'.Fields, isIgnoredField args f.Col.ColumnName = false) ∧
    (∀ (o : Oracle) (args : ArgType) (tm : MapL TypeT) (tpl : TypeT)
       (fkMap : Option (MapL FKey)) (fk : MForeignKey)
       (rest : List MForeignKey) (rng : Nat),
       tpl.Fields.find? (fun f => f.Col.ColumnName == fk.ColumnName) =
         none →
       (tm.find? (fun kv => kv.2.Table.TableName == fk.RefTableName)).isSome →
       GetTableForeignKeys o args tm tpl fkMap (fk :: rest) rng =
         .error (.goError "could not find col, refTpl, or refCol")) ∧
    (∀ (tl : TypeLoader) (args : ArgType) (ixTpl : IndexT)
       (ic : MIndexColumn),
       tl.IndexColumnList args.Schema ixTpl.Typ.Table.TableName
         ixTpl.Index.IndexName = .ok [ic] →
       ixTpl.Typ.Fields.find?
         (fun f => f.Col.ColumnName == ic.ColumnName) = none →
       LoadIndexColumns tl args ixTpl = .ok ixTpl) ∧
    (∀ (o : Oracle) (args : ArgType) (tm : MapL TypeT) (tpl : TypeT)
       (fk : MForeignKey) (rng : Nat) (c : Field) (kv : String × TypeT)
       (pkf : Field),
       tpl.Fields.find? (fun f => f.Col.ColumnName == fk.ColumnName) =
         some c →
       tm.find? (fun kv => kv.2.Table.TableName == fk.RefTableName) =
         some kv →
       kv.2.Fields.find?
         (fun f => f.Col.ColumnName == fk.RefColumnName) = none →
       kv.2.PrimaryKey = some pkf →
       (fk.ForeignKeyName == "") = false →
       GetTableForeignKeys o args tm tpl none [fk] rng =
         .ok ([⟨args.Schema, tpl, c, kv.2, pkf, fk, ""⟩], none, rng)) := by
  refine ⟨?_, ?_, ?_, ?_⟩
  · intro tl args tpl tpl' hF hok f hf
    unfold LoadColumns at hok
    cases hcl : tl.ColumnList args.Schema tpl.Table.TableName with
    | error e => rw [hcl] at hok; simp at hok
    | ok cols =>
      rw [hcl] at hok
      cases hok
      have hF' := (loadColumnsLoop_spec tl args cols tpl).1
      rw [hF, List.nil_append] at hF'
      rw [hF', List.mem_map] at hf
      obtain ⟨c, hc, rfl⟩ := hf
      rw [List.mem_filter] at hc
      have hcol : (mkField tl args c).Col = c := rfl
      rw [hcol]
      simpa using hc.2
  · intro o args tm tpl fkMap fk rest rng hcol hsome
    obtain ⟨kv, hkv⟩ := Option.isSome_iff_exists.mp hsome
    unfold GetTableForeignKeys
    rw [getTableForeignKeysLoop.eq_def]
    cases hfind : kv.2.Fields.find?
        (fun f => f.Col.ColumnName == fk.RefColumnName) with
    | some f => simp [hcol, hkv, hfind]
    | none =>
      cases hpk : kv.2.PrimaryKey with
      | some p => simp [hcol, hkv, hfind, hpk]
      | none => simp [hcol, hkv, hfind, hpk]
  · intro tl args ixTpl ic hcl hfind
    unfold LoadIndexColumns
    rw [hcl]
    simp [List.filterMap_cons, hfind]
  · intro o args tm tpl fk rng c kv pkf hcol hkv hrefcol hpk hname
    unfold GetTableForeignKeys
    rw [getTableForeignKeysLoop.eq_def]
    simp only [hcol, hkv, Option.map_some', hrefcol, hpk, hname,
      Bool.false_eq_true, if_false]
    rw [getTableForeignKeysLoop.eq_def]
    simp

/-- C4 witness: on the fixture, the ignored column's field is not
ignored-listed among loaded fields; an FK owning `secret_col` errors; an
index over `secret_col` silently succeeds unchanged; an FK referencing
`secret_col` silently resolves to the `users` primary key. -/
theorem C4_amended_ignored_column_witness :
    isIgnoredField ignoreArgs
      (mkField demoLoader ignoreArgs
        ⟨"name", "text", true, false⟩).Col.ColumnName = false ∧
    GetTableForeignKeys pgOracle ignoreArgs [("users", usersType)] usersType
      none [⟨"fk_bad", "secret_col", "users", "id"⟩] 0 =
      .error (.goError "could not find col, refTpl, or refCol") ∧
    LoadIndexColumns demoLoader ignoreArgs secretIndexInit =
      .ok secretIndexInit ∧
    GetTableForeignKeys pgOracle ignoreArgs [("users", usersType)] usersType
      none [⟨"fk_sub", "id", "users", "secret_col"⟩] 0 =
      .ok ([⟨"public", usersType, idIntegerField, usersType, idIntegerField,
        ⟨"fk_sub", "id", "users", "secret_col"⟩, ""⟩], none, 0) :=
  ⟨C4_amended_ignored_column.1 demoLoader ignoreArgs usersInit usersType rfl
    rfl (mkField demoLoader ignoreArgs ⟨"name", "text", true, false⟩)
    (by decide),
   C4_amended_ignored_column.2.1 pgOracle ignoreArgs [("users", usersType)]
    usersType none ⟨"fk_bad", "secret_col", "users", "id"⟩ [] 0 rfl rfl,
   C4_amended_ignored_column.2.2.1 demoLoader ignoreArgs secretIndexInit
    ⟨"secret_col", 2⟩ rfl rfl,
   C4_amended_ignored_column.2.2.2 pgOracle ignoreArgs [("users", usersType)]
    usersType ⟨"fk_sub", "id", "users", "secret_col"⟩ 0 idIntegerField
    ("users", usersType) idIntegerField rfl rfl rfl rfl rfl⟩

/-- C8: a successful `LoadSchema` run loads tables and views through the
same `LoadRelkind` (the table-list query parameterized by relation
kind), and its merged name-keyed map is exactly the view map folded over
the table map by Go map assignment — so for every name in the view map,
the merged map holds the view entry. -/
theorem C8_views_overwrite_tables (tl : TypeLoader) (o : Oracle)
    (args : ArgType) (rng : Nat) (res : SchemaResult)
    (hok : LoadSchema tl o args rng = .ok res) :
    ∃ tm vm, LoadRelkind tl o args .Table = .ok tm ∧
      LoadRelkind tl o args .View = .ok vm ∧
      res.tableMap = mergeTableMap tm vm ∧
      ∀ k v, mapLookup vm k = some v →
        mapLookup res.tableMap k = some v := by
  unfold LoadSchema at hok
  cases hE : LoadEnums tl o args with
  | error e => rw [hE] at hok; simp at hok
  | ok em =>
    simp only [hE] at hok
    cases hP : LoadProcs tl o args with
    | error e => rw [hP] at hok; simp at hok
    | ok pm =>
      simp only [hP] at hok
      cases hT : LoadRelkind tl o args .Table with
      | error e => rw [hT] at hok; simp at hok
      | ok tm =>
        simp only [hT] at hok
        cases hV : LoadRelkind tl o args .View with
        | error e => rw [hV] at hok; simp at hok
        | ok vm =>
          simp only [hV] at hok
          cases hFK : LoadForeignKeys tl o args (mergeTableMap tm vm) rng with
          | error e => rw [hFK] at hok; simp at hok
          | ok fkp =>
            obtain ⟨fkm, rng2⟩ := fkp
            simp only [hFK] at hok
            cases hIX : LoadIndexes tl o args (mergeTableMap tm vm) with
            | error e => rw [hIX] at hok; simp at hok
            | ok ixm =>
              simp only [hIX] at hok
              cases hok
              refine ⟨tm, vm, rfl, rfl, rfl, ?_⟩
              intro k v hv
              exact mergeTableMap_lookup_view tm vm
                (LoadRelkind_nodup tl o args .View vm hV) k v hv

/-- C8 witness: on the fixture, whose view list names a view `users`
colliding with the table `users`, the merged map of a full `LoadSchema`
run holds the view entry under `users`. -/
theorem C8_views_overwrite_tables_witness :
    mapLookup demoViewMap "users" = some demoUsersView ∧
    demoUsersView.RelTyp = RelType.View ∧
    mapLookup demoSchema.tableMap "users" = some demoUsersView := by
  refine ⟨rfl, rfl, ?_⟩
  obtain ⟨tm, vm, hT, hV, hm, hview⟩ :=
    C8_views_overwrite_tables demoLoader pgOracle baseArgs 0 demoSchema rfl
  apply hview
  have hconc : LoadRelkind demoLoader pgOracle baseArgs .View =
      .ok demoViewMap := rfl
  rw [hconc] at hV
  cases hV
  rfl

end Gendal
